import Mathlib

/-!
# Verification of `print_voucher_checks_text.py`

A shallow embedding in Lean 4 of the parse-and-render core of the
`managerio-check-print` utility, together with theorems settling the
specification claims about it.

Modelling conventions:

* Python `str` values are Lean `String`s; where the Python code manipulates a
  string as a character array we work with `String.data : List Char`.
* Python integers are `ℤ`; `Decimal` amounts with exactly two fraction digits
  are represented by their total value in cents (`ℤ`), which is exact.
* Python `//` and `%` are `Int.fdiv` / `Int.fmod`; `int(...)` truncation is
  `Int.tdiv` / `Int.tmod`.
* The regular expressions of the source (`AMT_TIGHT_RE`, `DATE_RE`,
  `AMOUNT_RE`, the inline `date_at_start` / `amt_at_start` patterns and
  `ZIP_RE`) are compiled by hand into executable matchers that reproduce the
  Python `re` backtracking behaviour (leftmost match, greedy quantifiers,
  ordered alternation, lookaround).
* Unicode NFKD normalisation inside `asciiize` is modelled as the identity;
  this is exact for ASCII text and for the smart-punctuation characters that
  `SMART_MAP` rewrites, which is the fragment the theorems use.
* File, printer and argparse plumbing is outside the model (the specification
  treats it as external collaborators); `main_outcome` models the pure
  pipeline of `main` from the decoded input lines to the produced artifacts.
-/

set_option maxRecDepth 16384

namespace PVC

/-! ## Basic string primitives (Python `str` operations) -/

/-- Characters stripped by Python's `str.strip()` / matched by `\s` (ASCII). -/
def pySpace (c : Char) : Bool :=
  c == ' ' || c == '\t' || c == '\n' || c == '\r' || c == '\x0b' || c == '\x0c'

/-- `str.strip()` on a character list. -/
def stripChars (l : List Char) : List Char :=
  ((l.dropWhile pySpace).reverse.dropWhile pySpace).reverse

/-- Python `str.strip()`. -/
def pyStrip (s : String) : String := ⟨stripChars s.data⟩

/-- Python `str.rstrip()`. -/
def pyRstrip (s : String) : String := ⟨(s.data.reverse.dropWhile pySpace).reverse⟩

/-- Python `str.lstrip()`. -/
def pyLstrip (s : String) : String := ⟨s.data.dropWhile pySpace⟩

/-- Python `sep.join(parts)`. -/
def pyJoin (sep : String) : List String → String
  | [] => ""
  | [x] => x
  | x :: y :: xs => x ++ sep ++ pyJoin sep (y :: xs)

/-- Is `pat` a prefix of `l`? -/
def isPrefL : List Char → List Char → Bool
  | [], _ => true
  | _ :: _, [] => false
  | a :: as_, b :: bs => a == b && isPrefL as_ bs

/-- Python `sub in s` on character lists (substring containment). -/
def containsL (sub : List Char) : List Char → Bool
  | [] => isPrefL sub []
  | c :: cs => isPrefL sub (c :: cs) || containsL sub cs

/-- Python `sub in s` for strings. -/
def containsSub (s sub : String) : Bool := containsL sub.data s.data

/-! ## `SMART_MAP`, `asciiize`, `sanitize` (source lines 222–248) -/

/-- The `SMART_MAP` character substitutions, as a character map
(`str.translate` with 1-to-1 replacements). -/
def smartChar (c : Char) : Char :=
  if c = '’' then '\'' else if c = '‘' then '\'' else
  if c = '“' then '"' else if c = '”' then '"' else
  if c = '–' then '-' else if c = '—' then '-' else
  if c = ' ' then ' ' else c

/-- `sanitize`: apply the `SMART_MAP` substitutions, keep everything else. -/
def sanitize (s : String) : String := ⟨s.data.map smartChar⟩

/-- `asciiize`: `SMART_MAP` substitutions, NFKD normalisation, then drop
non-ASCII characters.  NFKD is modelled as the identity (exact on ASCII and
smart-punctuation input, see the file header). -/
def asciiize (s : String) : String :=
  ⟨(s.data.map smartChar).filter (fun c => c.toNat ≤ 127)⟩

/-- `s.data.all` ASCII: the fragment on which the `asciiize` model is exact
and the identity. -/
def asciiOnly (s : String) : Bool := s.data.all (fun c => c.toNat ≤ 127)

/-! ## Layout constants and the placement operations (source lines 181–286) -/

/-- `CPL = 80`: characters per line. -/
def CPL : ℕ := 80

/-- `LINES_PER_PAGE = 54`. -/
def LINES_PER_PAGE : ℕ := 54

/-- `R`: 1-based to 0-based line helper, `max(0, n-1)` (natural subtraction). -/
def R (n : ℕ) : ℕ := n - 1

/-- `C`: 1-based to 0-based column helper, `max(0, n-1)`. -/
def C (n : ℕ) : ℕ := n - 1

/-- The write loop of `put`: write the characters of `t` at columns
`col + i`, `col + i + 1`, …, extending the line with spaces as needed and
stopping at the first position `≥ CPL` (the Python `for`/`break`). -/
def put_loop (arr : List Char) (col : ℕ) : List Char → ℕ → List Char
  | [], _ => arr
  | ch :: rest, i =>
    let p := col + i
    if CPL ≤ p then arr
    else
      let arr2 := if arr.length ≤ p then arr ++ List.replicate (p + 1 - arr.length) ' ' else arr
      put_loop (arr2.set p ch) col rest (i + 1)

/-- `put(linebuf, row, col, text)`: no-op for an out-of-range row, otherwise
asciiize the text, pad the target line with spaces up to `col`, and write the
characters of the text from `col`, truncating at column `CPL`.
A page buffer is a list of lines, each a list of characters. -/
def put (linebuf : List (List Char)) (row : Int) (col : ℕ) (text : String) :
    List (List Char) :=
  if row < 0 ∨ (linebuf.length : Int) ≤ row then linebuf
  else
    linebuf.set row.toNat
      (put_loop
        (if (linebuf.getD row.toNat []).length < col then
          linebuf.getD row.toNat [] ++
            List.replicate (col - (linebuf.getD row.toNat []).length) ' '
        else linebuf.getD row.toNat [])
        col (asciiize text).data 0)

/-- `put_right(linebuf, row, right_col_1based, text)`: right-aligned placement;
the start column is `max(0, C(right_col_1based) - len(text) + 1)`, written here
with truncating natural subtraction. -/
def put_right (linebuf : List (List Char)) (row : Int) (right_col_1based : ℕ)
    (text : String) : List (List Char) :=
  put linebuf row (C right_col_1based + 1 - text.length) text

/-- `blank_page()`: 54 empty lines. -/
def blank_page : List (List Char) := List.replicate LINES_PER_PAGE []

/-- `trim_trailing_blank_lines(page)`. -/
def trim_trailing_blank_lines (page : List (List Char)) : List (List Char) :=
  (page.reverse.dropWhile (fun ln => (stripChars ln).isEmpty)).reverse

/-- The character of page `page` at row `r`, column `q`, reading positions
beyond a line's current length (and rows beyond the page) as spaces. -/
def charAt (page : List (List Char)) (r q : ℕ) : Char := (page.getD r []).getD q ' '

/-! ## Decimal rendering of integers

Python renders integers in decimal (`repr`, `f"{..:02d}"`, `f"{..:.2f}"`).
The digit renderer is modelled explicitly. -/

/-- The decimal digit characters. -/
def digitChars : List Char := ['0', '1', '2', '3', '4', '5', '6', '7', '8', '9']

/-- Accumulator-style decimal digit expansion (`fuel ≥ 1 + log10 n`). -/
def natDigitsGo : ℕ → ℕ → List Char → List Char
  | 0, _, acc => acc
  | fuel + 1, n, acc =>
    if n < 10 then digitChars.getD n '0' :: acc
    else natDigitsGo fuel (n / 10) (digitChars.getD (n % 10) '0' :: acc)

/-- Decimal rendering of a natural number. -/
def natRepr (n : ℕ) : String := ⟨natDigitsGo (n + 1) n []⟩

/-- Decimal rendering of an integer (sign followed by digits). -/
def intRepr (z : ℤ) : String := (if z < 0 then "-" else "") ++ natRepr z.natAbs

/-! ## Money to words (source lines 288–315) -/

/-- The `small` word list of `money_words`. -/
def small : List String :=
  ["zero", "one", "two", "three", "four", "five", "six", "seven", "eight", "nine",
   "ten", "eleven", "twelve", "thirteen", "fourteen", "fifteen", "sixteen",
   "seventeen", "eighteen", "nineteen"]

/-- The `tens` word list of `money_words`. -/
def tens : List String :=
  ["", "ten", "twenty", "thirty", "forty", "fifty", "sixty", "seventy", "eighty", "ninety"]

/-- The word list built by `up_to_999` before the final `" ".join`.
Python integers are `ℤ`, `//` is `Int.fdiv`, `%` is `Int.fmod`; list indexing
(always in range on the reachable inputs) is `List.getD`. -/
def up_to_999_parts (x : ℤ) : List String :=
  let p1 : List String :=
    if 100 ≤ x then [small.getD (x.fdiv 100).toNat "", "hundred"] else []
  let y : ℤ := if 100 ≤ x then x.fmod 100 else x
  let p2 : List String :=
    if 20 ≤ y then
      [tens.getD (y.fdiv 10).toNat ""] ++
        (if y.fmod 10 ≠ 0 then [small.getD (y.fmod 10).toNat ""] else [])
    else if 0 < y then [small.getD y.toNat ""]
    else if p1.isEmpty then ["zero"] else []
  p1 ++ p2

/-- `up_to_999(x)`. -/
def up_to_999 (x : ℤ) : String := pyJoin " " (up_to_999_parts x)

/-- The `out` list built by `chunk` before the final `" ".join`. -/
def chunk_parts (x : ℤ) : List String :=
  let o1 := if 1000000000 ≤ x then [up_to_999 (x.fdiv 1000000000), "billion"] else []
  let x1 := if 1000000000 ≤ x then x.fmod 1000000000 else x
  let o2 := if 1000000 ≤ x1 then [up_to_999 (x1.fdiv 1000000), "million"] else []
  let x2 := if 1000000 ≤ x1 then x1.fmod 1000000 else x1
  let o3 := if 1000 ≤ x2 then [up_to_999 (x2.fdiv 1000), "thousand"] else []
  let x3 := if 1000 ≤ x2 then x2.fmod 1000 else x2
  let o4 := if 0 < x3 then [up_to_999 x3] else []
  o1 ++ o2 ++ o3 ++ o4

/-- `chunk(x)`: `" ".join(out) if out else "zero"`. -/
def chunk (x : ℤ) : String :=
  let out := chunk_parts x
  if out.isEmpty then "zero" else pyJoin " " out

/-- Python `str.capitalize()`: first character upper-cased, the rest of the
string lower-cased. -/
def pyCapitalize (s : String) : String :=
  match s.data with
  | [] => ""
  | c :: cs => ⟨c.toUpper :: cs.map Char.toLower⟩

/-- Python `f"{z:02d}"`: decimal rendering zero-padded to (total) width 2. -/
def pyFmt02d (z : ℤ) : String :=
  let s := intRepr z
  if s.length < 2 then "0" ++ s else s

/-- `money_words(val)`.  The `Decimal` argument `val`, which on every call
site carries exactly two fraction digits, is represented exactly by its total
number of cents `tc : ℤ` (`val = tc / 100`).  Then `n = int(val)` is
`tc.tdiv 100` and `cents = int(round((val - n) * 100))` is exactly
`tc.tmod 100` (the rounding is exact for two-fraction-digit decimals). -/
def money_words (tc : ℤ) : String :=
  let n := tc.tdiv 100
  let cents := tc.tmod 100
  pyCapitalize (chunk n ++ (if n = 1 then " dollar" else " dollars") ++
    " and " ++ pyFmt02d cents ++ "/100")

/-- Python `f"{val:.2f}"` on a two-fraction-digit `Decimal`, again represented
by its total cents: sign, integer part, `"."`, zero-padded cents. -/
def fmt2 (tc : ℤ) : String :=
  (if tc < 0 then "-" else "") ++ natRepr (tc.natAbs / 100) ++ "." ++
    (if tc.natAbs % 100 < 10 then "0" else "") ++ natRepr (tc.natAbs % 100)

/-! ### Specification-side rendering of amounts in words

The following definitions transcribe §4.5 of the specification ("integer part
spelled out using standard short-scale grouping (thousand/million/billion)",
pluralisation on exactly 1, `" and NN/100"`, capitalised only at its first
letter).  They are deliberately written as a different decomposition (digit
groups extracted arithmetically, words as flat lists) to be compared with the
source translation above. -/

/-- Spec: the canonical English word for a value below twenty. -/
def specSmallWord : ℕ → String
  | 0 => "zero"
  | 1 => "one"
  | 2 => "two"
  | 3 => "three"
  | 4 => "four"
  | 5 => "five"
  | 6 => "six"
  | 7 => "seven"
  | 8 => "eight"
  | 9 => "nine"
  | 10 => "ten"
  | 11 => "eleven"
  | 12 => "twelve"
  | 13 => "thirteen"
  | 14 => "fourteen"
  | 15 => "fifteen"
  | 16 => "sixteen"
  | 17 => "seventeen"
  | 18 => "eighteen"
  | 19 => "nineteen"
  | _ => ""

/-- Spec: the canonical English tens word (`2 ↦ "twenty"`, …). -/
def specTensWord : ℕ → String
  | 2 => "twenty"
  | 3 => "thirty"
  | 4 => "forty"
  | 5 => "fifty"
  | 6 => "sixty"
  | 7 => "seventy"
  | 8 => "eighty"
  | 9 => "ninety"
  | _ => ""

/-- Spec: words for a value below 100 (empty for 0). -/
def specBelowHundred (y : ℕ) : List String :=
  if y = 0 then []
  else if y < 20 then [specSmallWord y]
  else specTensWord (y / 10) ::
    (if y % 10 = 0 then [] else [specSmallWord (y % 10)])

/-- Spec: words for one three-digit group (empty for 0). -/
def specHundreds (h : ℕ) : List String :=
  (if h / 100 = 0 then [] else [specSmallWord (h / 100), "hundred"]) ++
    specBelowHundred (h % 100)

/-- Spec: the short-scale groups of `n` (billions, millions, thousands,
units), each a non-empty word list when the group's three-digit value is
non-zero. -/
def specSegs (n : ℕ) : List (List String) :=
  (if n / 1000000000 % 1000 = 0 then []
    else [specHundreds (n / 1000000000 % 1000), ["billion"]]) ++
  (if n / 1000000 % 1000 = 0 then []
    else [specHundreds (n / 1000000 % 1000), ["million"]]) ++
  (if n / 1000 % 1000 = 0 then []
    else [specHundreds (n / 1000 % 1000), ["thousand"]]) ++
  (if n % 1000 = 0 then [] else [specHundreds (n % 1000)])

/-- Spec: the short-scale English spelling of `n` as a flat word list. -/
def specSpell (n : ℕ) : List String :=
  if n = 0 then ["zero"] else (specSegs n).flatten

/-- Spec: the zero-padded two-digit cent value `NN`. -/
def specPad2 (c : ℕ) : String :=
  ⟨[Char.ofNat (48 + c / 10), Char.ofNat (48 + c % 10)]⟩

/-- Spec (§4.5): the full money phrase for integer part `m` and cents `c`:
spelled-out integer part, `" dollar"`/`" dollars"` on exactly 1, then
`" and NN/100"`, capitalised at its first letter. -/
def spec_money_phrase (m c : ℕ) : String :=
  pyCapitalize (pyJoin " " (specSpell m) ++
    (if m = 1 then " dollar" else " dollars") ++ " and " ++ specPad2 c ++ "/100")

/-! ## The Amount Lexer: `AMT_TIGHT_RE` (source lines 228–235)

`AMT_TIGHT_RE = (?<!\d)(-?(?:\d{1,3}(?:,\d{3})*|\d+)\.\d{2})(?!\d)`, compiled
by hand: `re.search` scans start positions left to right; at each position the
engine tries the sign, then the first integer-part alternative with greedy
`\d{1,3}` (3, 2, 1 digits) and greedy `(?:,\d{3})*` (most groups first), then
the `\d+` alternative with the longest run first; the token must end in
`.` plus exactly two digits and must not be adjacent to digits on either
side. -/

/-- Length of the maximal digit run at the head of `l`. -/
def digitsRun : List Char → ℕ
  | [] => 0
  | c :: cs => if c.isDigit then digitsRun cs + 1 else 0

/-- Maximal number of consecutive `,ddd` groups at the head of `l`
(the greedy upper bound for `(?:,\d{3})*`). -/
def starMax : List Char → ℕ
  | ',' :: a :: b :: c :: rest =>
    if a.isDigit && b.isDigit && c.isDigit then starMax rest + 1 else 0
  | _ => 0

/-- `\.\d{2}(?!\d)` at the head of `l` (decimal point, two digits, negative
digit lookahead). -/
def amtTail (l : List Char) : Bool :=
  match l with
  | '.' :: a :: b :: rest => a.isDigit && b.isDigit && !((rest.headD 'x').isDigit)
  | _ => false

/-- `\.\d{2}` at the head of `l` (no lookahead; used by `amt_at_start`). -/
def amtTailLoose (l : List Char) : Bool :=
  match l with
  | '.' :: a :: b :: _ => a.isDigit && b.isDigit
  | _ => false

/-- First alternative `\d{1,3}(?:,\d{3})*` followed by `\.\d{2}(?!\d)`:
backtracking order is `\d{1,3}` greedily from `min 3 run` down to 1, and for
each, the star greedily from its maximum down to 0.  Returns the number of
characters consumed (including the 3 tail characters). -/
def amtB1 (l : List Char) : Option ℕ :=
  let d1max := min 3 (digitsRun l)
  (List.range d1max).findSome? (fun t =>
    let d1 := d1max - t
    let g := starMax (l.drop d1)
    (List.range (g + 1)).findSome? (fun u =>
      let j := g - u
      if amtTail (l.drop (d1 + 4 * j)) then some (d1 + 4 * j + 3) else none))

/-- Second alternative `\d+` followed by `\.\d{2}(?!\d)`: longest digit run
first. -/
def amtB2 (l : List Char) : Option ℕ :=
  let run := digitsRun l
  (List.range run).findSome? (fun t =>
    let len := run - t
    if amtTail (l.drop len) then some (len + 3) else none)

/-- The unsigned core of `AMT_TIGHT_RE`: ordered alternation. -/
def amtCoreNoSign (l : List Char) : Option ℕ :=
  match amtB1 l with
  | some k => some k
  | none => amtB2 l

/-- The core of `AMT_TIGHT_RE` with the optional leading sign.  (If a `-` is
present it is consumed; retrying without it cannot succeed because `-` is not
a digit.) -/
def amtCore (l : List Char) : Option ℕ :=
  match l with
  | '-' :: rest => (amtCoreNoSign rest).map (fun k => k + 1)
  | _ => amtCoreNoSign l

/-- The `(?<!\d)` lookbehind at position `p` of `s`. -/
def lookbehindOk (s : List Char) (p : ℕ) : Bool :=
  p == 0 || !((s.getD (p - 1) ' ').isDigit)

/-- One attempt of `AMT_TIGHT_RE` at start position `p`: returns the end
index (exclusive) of the match. -/
def amtMatchAt (s : List Char) (p : ℕ) : Option ℕ :=
  if lookbehindOk s p then (amtCore (s.drop p)).map (fun k => p + k) else none

/-- `AMT_TIGHT_RE.search(s)`: leftmost match, as a `(start, end)` index pair. -/
def amtSearch (s : String) : Option (ℕ × ℕ) :=
  (List.range s.data.length).findSome? (fun p =>
    (amtMatchAt s.data p).map (fun e => (p, e)))

/-- `m.group(1)` of an `AMT_TIGHT_RE` match (the whole match: the lookarounds
are zero-width). -/
def amtGroup (s : String) (pe : ℕ × ℕ) : String :=
  ⟨(s.data.drop pe.1).take (pe.2 - pe.1)⟩

/-! ### Specification-side monetary-token predicate (§4.2)

The claim describes the lexeme declaratively: "optional sign, integer part
with optional thousands separators, literal decimal point, exactly two
fraction digits, where the match is not adjacent to other digits".  The
following predicate transcribes those words; the theorems relate it to the
compiled matcher `amtSearch`. -/

/-- Spec: zero or more `,ddd` thousands groups covering all of `l`. -/
def groupedTail : List Char → Bool
  | [] => true
  | ',' :: a :: b :: c :: rest =>
    a.isDigit && b.isDigit && c.isDigit && groupedTail rest
  | _ => false

/-- Spec: the integer part of a monetary token — a plain digit run, or one to
three digits followed by thousands groups. -/
def intShape (l : List Char) : Bool :=
  (!l.isEmpty && l.all Char.isDigit) ||
  (decide (1 ≤ (l.takeWhile Char.isDigit).length) &&
    decide ((l.takeWhile Char.isDigit).length ≤ 3) &&
    groupedTail (l.drop (l.takeWhile Char.isDigit).length))

/-- Spec: integer part, literal decimal point, exactly two fraction digits. -/
def fracShape (r : List Char) : Bool :=
  match r.reverse with
  | b :: a :: '.' :: irev => a.isDigit && b.isDigit && intShape irev.reverse
  | _ => false

/-- Spec: the full token shape with the optional leading sign. -/
def tokenShape (t : List Char) : Bool :=
  fracShape (if t.headD 'x' = '-' then t.tail else t)

/-- Spec (§4.2): a monetary token occupies exactly the span `[p, e)` of `s`
and is not adjacent to a digit on either side. -/
def amtTokenAt (s : List Char) (p e : ℕ) : Bool :=
  decide (p < e) && decide (e ≤ s.length) &&
  (p == 0 || !((s.getD (p - 1) ' ').isDigit)) &&
  (!((s.getD e ' ').isDigit)) &&
  tokenShape ((s.drop p).take (e - p))

/-! ## Date and amount line patterns (source lines 219–220, 441–442) -/

/-- `date_at_start = ^\s*(\d{2}/\d{2}/\d{4})(.*)$` as
`Option (group1, group2)`. -/
def dateAtStart (s : String) : Option (String × String) :=
  match s.data.dropWhile pySpace with
  | a :: b :: '/' :: c :: d :: '/' :: e :: f :: g :: h :: rest =>
    if a.isDigit && b.isDigit && c.isDigit && d.isDigit &&
        e.isDigit && f.isDigit && g.isDigit && h.isDigit then
      some (⟨[a, b, '/', c, d, '/', e, f, g, h]⟩, ⟨rest⟩)
    else none
  | _ => none

/-- `DATE_RE = ^\s*\d{2}/\d{2}/\d{4}\s*$` (full-line date). -/
def dateFullMatch (s : String) : Bool :=
  match dateAtStart s with
  | some (_, rest) => (rest.data.dropWhile pySpace).isEmpty
  | none => false

/-- `amt_at_start`'s integer-part-plus-tail matcher (first alternative shape
only, no `\d+` fallback, no lookahead), returning the consumed length. -/
def amtStartLenNoSign (l : List Char) : Option ℕ :=
  let d1max := min 3 (digitsRun l)
  (List.range d1max).findSome? (fun t =>
    let d1 := d1max - t
    let g := starMax (l.drop d1)
    (List.range (g + 1)).findSome? (fun u =>
      let j := g - u
      if amtTailLoose (l.drop (d1 + 4 * j)) then some (d1 + 4 * j + 3) else none))

/-- As `amtStartLenNoSign` with the optional leading `-`. -/
def amtStartLen (l : List Char) : Option ℕ :=
  match l with
  | '-' :: rest => (amtStartLenNoSign rest).map (fun k => k + 1)
  | _ => amtStartLenNoSign l

/-- `amt_at_start = ^\s*(-?\d{1,3}(?:,\d{3})*(?:\.\d{2}))(.*)$` as
`Option (group1, group2)`. -/
def amtAtStart (s : String) : Option (String × String) :=
  let l := s.data.dropWhile pySpace
  match amtStartLen l with
  | none => none
  | some k => some (⟨l.take k⟩, ⟨l.drop k⟩)

/-- `AMOUNT_RE = ^\s*[-+]?\d{1,3}(?:,\d{3})*(?:\.\d{2})\s*$` (the full-line
amount pattern of the block fallback). -/
def amountFullMatch (s : String) : Bool :=
  let l0 := s.data.dropWhile pySpace
  let l := match l0 with
    | '-' :: r => r
    | '+' :: r => r
    | _ => l0
  let d1max := min 3 (digitsRun l)
  (List.range d1max).any (fun t =>
    let d1 := d1max - t
    let g := starMax (l.drop d1)
    (List.range (g + 1)).any (fun u =>
      let j := g - u
      match l.drop (d1 + 4 * j) with
      | '.' :: a :: b :: rest => a.isDigit && b.isDigit && (rest.dropWhile pySpace).isEmpty
      | _ => false))

/-! ## `ZIP_RE` (source line 237): `\b\d{5}(?:-\d{4})?\b` -/

/-- Python's `\w` word-character class (ASCII fragment). -/
def wordCharB (c : Char) : Bool := c.isAlphanum || c == '_'

/-- Does `ZIP_RE` match at start position `p`?  Out-of-range reads default to
a space, which is correctly a non-digit non-word character. -/
def zipMatchAt (s : List Char) (p : ℕ) : Bool :=
  (p == 0 || !(wordCharB (s.getD (p - 1) ' '))) &&
  ((List.range 5).all (fun i => (s.getD (p + i) ' ').isDigit)) &&
  (((s.getD (p + 5) ' ' == '-') &&
      ((List.range 4).all (fun i => (s.getD (p + 6 + i) ' ').isDigit)) &&
      !(wordCharB (s.getD (p + 10) ' '))) ||
    !(wordCharB (s.getD (p + 5) ' ')))

/-- `ZIP_RE.search(s).start()`: start index of the leftmost match. -/
def zipSearchStart (s : String) : Option ℕ :=
  (List.range s.data.length).findSome? (fun p =>
    if zipMatchAt s.data p then some p else none)

/-! ## Field splitting and the Address Normalizer (source lines 250–257, 337–365) -/

/-- Python `s.split('|')` on a character list. -/
def splitPipeL : List Char → List (List Char)
  | [] => [[]]
  | c :: cs =>
    if c = '|' then [] :: splitPipeL cs
    else
      match splitPipeL cs with
      | [] => [[c]]
      | p :: ps => (c :: p) :: ps

/-- Drop trailing empty strings (the `while parts and not parts[-1]: parts.pop()`
loop). -/
def dropTrailingEmpties (ps : List String) : List String :=
  (ps.reverse.dropWhile (fun p => p.data.isEmpty)).reverse

/-- `split_fields_by_pipes(s)`: split on `'|'` trimming pieces; preserve the
trailing empty piece iff the string ended with `'|'`. -/
def split_fields_by_pipes (s : String) : List String :=
  let parts := (splitPipeL s.data).map (fun p => (⟨stripChars p⟩ : String))
  if s.data.getLast? = some '|' then parts else dropTrailingEmpties parts

/-- The non-empty trimmed pieces of a `'|'`-bearing address line
(`[p.strip() for p in ln.split('|') if p.strip()]`). -/
def splitBarPieces (l : List Char) : List String :=
  (splitPipeL l).filterMap (fun p =>
    let q := stripChars p
    if q.isEmpty then none else some (⟨q⟩ : String))

/-- The accumulation pass of `normalize_addr`: strip each line, skip empties,
split lines that contain `'|'` into their non-empty trimmed pieces. -/
def normalize_addr_parts (addr_lines : List String) : List String :=
  (addr_lines.map (fun ln0 =>
    let ln := pyStrip ln0
    if ln.data.isEmpty then []
    else if ln.data.contains '|' then splitBarPieces ln.data
    else [ln])).flatten

/-- Python `left.rfind(',')` as an `Option` index. -/
def rfindComma (l : List Char) : Option ℕ :=
  match l.reverse.findIdx? (fun c => c == ',') with
  | some r => some (l.length - 1 - r)
  | none => none

/-- `normalize_addr(addr_lines)`: the accumulation pass, then, if exactly one
line resulted, the ZIP-based two-line split. -/
def normalize_addr (addr_lines : List String) : List String :=
  let parts := normalize_addr_parts addr_lines
  match parts with
  | [s] =>
    match zipSearchStart s with
    | none => [s]
    | some st =>
      let left := pyRstrip ⟨s.data.take st⟩
      let right := pyLstrip ⟨s.data.drop st⟩
      match rfindComma left.data with
      | none => [s]
      | some k =>
        let line1 := pyStrip ⟨left.data.take k⟩
        let line2 := pyStrip (pyStrip ⟨left.data.drop (k + 1)⟩ ++ " " ++ right)
        [line1, line2]
  | _ => parts

/-! ## Amount conversion: `Decimal` (source lines 400–401, 500–501, 553–554) -/

/-- Numeric value of a digit list. -/
def digitsVal (l : List Char) : ℕ := l.foldl (fun a c => a * 10 + (c.toNat - 48)) 0

/-- `Decimal(s)` on the amount-token strings reaching it (digits with an
optional sign and an optional `.dd` part, commas already removed), as total
cents; `none` models `InvalidOperation`. -/
def parseUnsignedCents (l : List Char) : Option ℤ :=
  let ip := l.takeWhile Char.isDigit
  if ip.isEmpty then none
  else
    match l.drop ip.length with
    | [] => some (digitsVal ip * 100)
    | ['.', a, b] =>
      if a.isDigit && b.isDigit then
        some (digitsVal ip * 100 + 10 * ((a.toNat : ℤ) - 48) + ((b.toNat : ℤ) - 48))
      else none
    | _ => none

/-- `Decimal` with the optional sign. -/
def parseCents (s : String) : Option ℤ :=
  match s.data with
  | '-' :: r => (parseUnsignedCents r).map (fun z => -z)
  | '+' :: r => parseUnsignedCents r
  | l => parseUnsignedCents l

/-! ## The pipe-aware fast path (source lines 367–420) -/

/-- The fields of one parsed record before the date is attached. -/
structure ParsedPayload where
  payee : String
  memo : String
  amount : ℤ
  addr : List String
deriving DecidableEq, Repr

/-- A structured payment record. -/
structure PayRec where
  date : String
  payee : String
  memo : String
  addr : List String
  amount : ℤ
deriving DecidableEq, Repr

/-- The address-collection loop of `parse_payload_with_pipes`: following lines
become address lines until a blank line, a full-line date, or an
amount-bearing line. -/
def collect_addr_follow : List String → List String
  | [] => []
  | ln :: rest =>
    let s := pyStrip ln
    if s.data.isEmpty then []
    else if dateFullMatch s || (amtSearch s).isSome then []
    else s :: collect_addr_follow rest

/-- The tail of `parse_payload_with_pipes` once the amount-bearing line
`remainder` and its match `(start, e)` are fixed: convert the matched group,
take the text after the match as the address head, collect further address
lines from `follow2`, and normalise.  Returns the record together with the
not-consumed part of the follow lines. -/
def pipe_build (payee memo remainder : String) (e : ℕ) (g : String)
    (follow2 : List String) : Option (ParsedPayload × List String) :=
  match parseCents ⟨g.data.filter (fun c => !(c == ','))⟩ with
  | none => none
  | some amount =>
    let addr_head := pyStrip ⟨remainder.data.drop e⟩
    let addr_lines := (if addr_head.data.isEmpty then [] else [addr_head]) ++
      collect_addr_follow follow2
    some (⟨payee, memo, amount, normalize_addr addr_lines⟩, follow2)

/-- Token 0 of the pipe-split payload, stripped: the payee. -/
def pipe_payee (first_payload : String) : String :=
  pyStrip ((split_fields_by_pipes first_payload).headD "")

/-- Token 1 (when present), stripped: the memo. -/
def pipe_memo (first_payload : String) : String :=
  if 2 ≤ (split_fields_by_pipes first_payload).length then
    pyStrip ((split_fields_by_pipes first_payload).getD 1 "")
  else ""

/-- Tokens 2… re-joined with `'|'` and stripped: the remainder searched for
the amount. -/
def pipe_remainder (first_payload : String) : String :=
  if 3 ≤ (split_fields_by_pipes first_payload).length then
    pyStrip (pyJoin "|" ((split_fields_by_pipes first_payload).drop 2))
  else ""

/-- `parse_payload_with_pipes(first_payload, follow_lines)`.  On success the
second component is what remains of `follow_lines` after the `del` (the caller
computes the consumed count from it); `none` lets the caller fall back. -/
def parse_payload_with_pipes (first_payload : String) (follow : List String) :
    Option (ParsedPayload × List String) :=
  let payee := pipe_payee first_payload
  let memo := pipe_memo first_payload
  let remainder := pipe_remainder first_payload
  match amtSearch remainder with
  | some pe => pipe_build payee memo remainder pe.2 (amtGroup remainder pe) follow
  | none =>
    match follow.findIdx? (fun ln => !(pyStrip ln).data.isEmpty) with
    | none => none
    | some j =>
      let line := follow.getD j ""
      match amtSearch line with
      | none => none
      | some pe => pipe_build payee memo line pe.2 (amtGroup line pe) (follow.drop (j + 1))

/-! ## `parse_text_report` (source lines 422–532) -/

/-- The report-footer marker strings. -/
def footerA : String := "Printable Checks - For the period"

/-- The second footer marker string. -/
def footerB : String := "custom-report-view"

/-- The header-row test: lower-case the line, delete all whitespace, and check
the prefix `"datecontactdescriptioncredit"`. -/
def isHeaderLine (ln : String) : Bool :=
  isPrefL "datecontactdescriptioncredit".data
    ((ln.data.map Char.toLower).filter (fun c => !pySpace c))

/-- The date-scanning loop: starting at absolute index `i` (whose suffix of
the lines is the first argument), find the next line matching
`date_at_start`, returning its index and the two match groups; a footer
marker line (or the end of input) aborts the whole extraction (`none`). -/
def scanDateGo : List String → ℕ → Option (ℕ × String × String)
  | [], _ => none
  | ln :: rest, i =>
    match dateAtStart ln with
    | some (d, tail) => some (i, d, tail)
    | none =>
      if containsSub ln footerA || containsSub ln footerB then none
      else scanDateGo rest (i + 1)

/-- The legacy pre-amount accumulation loop: skip blank lines, stop (without
consuming) at an `amt_at_start` line or a footer line, collect stripped lines
otherwise.  Returns the collected lines and the index where the loop
stopped. -/
def accum_pre_go : List String → ℕ → (List String × ℕ)
  | [], i => ([], i)
  | ln :: rest, i =>
    let s := pyRstrip ln
    if s.data.isEmpty then accum_pre_go rest (i + 1)
    else if (amtAtStart s).isSome then ([], i)
    else if containsSub s footerA || containsSub s footerB then ([], i)
    else
      let r := accum_pre_go rest (i + 1)
      (pyStrip s :: r.1, r.2)

/-- The legacy address loop: collect stripped lines until a blank line (which
is consumed), a date line, an amount line or a footer line (not consumed).
Returns the collected lines and the index where the loop stopped. -/
def legacy_addr_go : List String → ℕ → (List String × ℕ)
  | [], i => ([], i)
  | ln :: rest, i =>
    let s := pyStrip ln
    if s.data.isEmpty then ([], i + 1)
    else if (dateAtStart s).isSome || (amtAtStart s).isSome ||
        containsSub s footerA || containsSub s footerB then ([], i)
    else
      let r := legacy_addr_go rest (i + 1)
      (s :: r.1, r.2)

/-- The fixed-arity payee/memo split of the legacy path. -/
def payee_memo_split (pre : List String) : String × String :=
  if 4 ≤ pre.length then (pyJoin " " (pre.take 2), pyJoin " " (pre.drop 2))
  else
    match pre with
    | [a, b, c] => (a, pyJoin " " [b, c])
    | [a, b] => (a, b)
    | [a] => (a, "")
    | _ => ("", "")

/-- The main record loop of `parse_text_report`.  The loop index `i` strictly
increases at every iteration, so `lines.length + 1` units of fuel make the
model total; `out` accumulates records in order. -/
def ptr_go (lines : List String) : ℕ → ℕ → List PayRec → List PayRec
  | 0, _, out => out
  | fuel + 1, i, out =>
    match scanDateGo (lines.drop i) i with
    | none => out
    | some (idate, date0, tail) =>
      let date := pyStrip date0
      let first_payload := pyStrip tail
      let i1 := idate + 1
      let pipeRes : Option (ParsedPayload × ℕ) :=
        if first_payload.data.contains '|' then
          match parse_payload_with_pipes first_payload (lines.drop i1) with
          | some (pp, follow2) => some (pp, i1 + ((lines.drop i1).length - follow2.length))
          | none => none
        else none
      match pipeRes with
      | some (pp, i2) =>
        ptr_go lines fuel i2 (out ++ [⟨date, pp.payee, pp.memo, pp.addr, pp.amount⟩])
      | none =>
        let pre0 : List String := if first_payload.data.isEmpty then [] else [first_payload]
        let ar := accum_pre_go (lines.drop i1) i1
        let pre := pre0 ++ ar.1
        let i2 := ar.2
        if lines.length ≤ i2 then out
        else
          match amtAtStart (pyStrip (lines.getD i2 "")) with
          | none => out
          | some (amt_str, amt_tail) =>
            let i3 := i2 + 1
            match parseCents ⟨amt_str.data.filter (fun c => !(c == ','))⟩ with
            | none => out
            | some amount =>
              let la := legacy_addr_go (lines.drop i3) i3
              let addr_lines := (if (pyStrip amt_tail).data.isEmpty then []
                else [pyStrip amt_tail]) ++ la.1
              let pm := payee_memo_split pre
              ptr_go lines fuel la.2
                (out ++ [⟨date, pm.1, pm.2, normalize_addr addr_lines, amount⟩])

/-- `parse_text_report(lines)`: find the header row; without one return `[]`;
otherwise run the record loop from the line after the header. -/
def parse_text_report (lines : List String) : List PayRec :=
  match lines.findIdx? isHeaderLine with
  | none => []
  | some hdr => ptr_go lines (lines.length + 1) (hdr + 1) []

/-! ## `parse_blocks` (source lines 534–565) -/

/-- `MAX_PAYEE_LINES = 2`. -/
def MAX_PAYEE_LINES : ℕ := 2

/-- Scan a block's chunk from the end for the last full-line amount. -/
def lastAmountIdx (chunk : List String) : Option ℕ :=
  (List.range chunk.length).reverse.findSome? (fun idx =>
    if amountFullMatch (chunk.getD idx "") then some idx else none)

/-- Build one block's record: last full-line amount, `'|'`-bearing lines after
it as address candidates, body split into payee (≤2 lines) and memo. -/
def recordOfBlock (date : String) (chunk : List String) : Option PayRec :=
  match lastAmountIdx chunk with
  | none => none
  | some amt_idx =>
    match parseCents (pyStrip ⟨(chunk.getD amt_idx "").data.filter (fun c => !(c == ','))⟩) with
    | none => none
    | some amount =>
      let addr_raw := (chunk.drop (amt_idx + 1)).filter (fun l => l.data.contains '|')
      let address := normalize_addr addr_raw
      let body := chunk.take amt_idx
      let payee := body.take MAX_PAYEE_LINES
      let desc := body.drop payee.length
      let payee_txt := pyJoin " " (payee.filterMap (fun x =>
        let t := pyStrip x
        if t.data.isEmpty then none else some t))
      let desc_txt := pyJoin " " (desc.filterMap (fun x =>
        let t := pyStrip x
        if t.data.isEmpty then none else some t))
      some ⟨date, payee_txt, desc_txt, address, amount⟩

/-- The block loop of `parse_blocks` over a suffix of the lines: group the
lines between successive `DATE_RE` lines into blocks.  Fuel as in `ptr_go`. -/
def pblocks_go : ℕ → List String → List PayRec
  | 0, _ => []
  | _, [] => []
  | fuel + 1, ln :: rest =>
    if dateFullMatch ln then
      let chunkRaw := rest.takeWhile (fun l => !(dateFullMatch l))
      let rest2 := rest.dropWhile (fun l => !(dateFullMatch l))
      let chunk := (chunkRaw.filter (fun l => !(pyStrip l).data.isEmpty)).map pyRstrip
      match recordOfBlock (pyStrip ln) chunk with
      | none => pblocks_go fuel rest2
      | some r => r :: pblocks_go fuel rest2
    else pblocks_go fuel rest

/-- `parse_blocks(lines)`. -/
def parse_blocks (lines : List String) : List PayRec :=
  pblocks_go (lines.length + 1) lines

/-- The record-extraction composition of `main` (source line 699):
`records = parse_text_report(raw_lines) or parse_blocks(raw_lines)` — the
block fallback runs exactly when the primary parser returns an empty list. -/
def extract_records (lines : List String) : List PayRec :=
  let r := parse_text_report lines
  if r.isEmpty then parse_blocks lines else r

/-! ## Rendering (source lines 203–215, 568–598) -/

/-- `ROW_DATE = R(6)`. -/
def ROW_DATE : ℕ := R 6

/-- `COL_DATE = C(50)`. -/
def COL_DATE : ℕ := C 50

/-- `ROW_PAYEE = R(6)`. -/
def ROW_PAYEE : ℕ := R 6

/-- `COL_PAYEE = C(9)`. -/
def COL_PAYEE : ℕ := C 9

/-- `ROW_AMT_NUM = R(7)`. -/
def ROW_AMT_NUM : ℕ := R 7

/-- `AMT_RIGHT_COL = 73` (1-based). -/
def AMT_RIGHT_COL : ℕ := 73

/-- `ROW_WORDS = R(9)`. -/
def ROW_WORDS : ℕ := R 9

/-- `COL_WORDS = C(7)`. -/
def COL_WORDS : ℕ := C 7

/-- `ROW_ADDR_START = R(12)`. -/
def ROW_ADDR_START : ℕ := R 12

/-- `COL_ADDR = C(6)`. -/
def COL_ADDR : ℕ := C 6

/-- `ROW_MEMO = R(17)`. -/
def ROW_MEMO : ℕ := R 17

/-- `COL_MEMO = C(7)`. -/
def COL_MEMO : ℕ := C 7

/-- `ROW_STUB1 = row_in(3.50)`, whose float arithmetic
`int(round((0.5 + 3.5) * 6))` evaluates to 24. -/
def ROW_STUB1 : ℕ := 24

/-- `ROW_STUB2 = row_in(7.00) = int(round(7.5 * 6)) = 45`. -/
def ROW_STUB2 : ℕ := 45

/-- `COL_STUB_LABEL = col_in(0.20)`: `(0.5 + 0.2) * 10` is
`7.000000000000001` in binary floating point, so this is 7. -/
def COL_STUB_LABEL : ℕ := 7

/-- `COL_STUB_VAL = col_in(1.20)`: `(0.5 + 1.2) * 10 = 17.000000000000004`,
so 17. -/
def COL_STUB_VAL : ℕ := 17

/-- The address-placement loop of `render_check_page` (one row per line). -/
def put_addr_lines (page : List (List Char)) (r : ℕ) : List String → List (List Char)
  | [] => page
  | ln :: rest => put_addr_lines (put page (r : Int) COL_ADDR ln) (r + 1) rest

/-- The final `ln[:CPL].ljust(CPL)` pass. -/
def pad_line (ln : List Char) : List Char :=
  let t := ln.take CPL
  t ++ List.replicate (CPL - t.length) ' '

/-- `render_check_page(rec)`: sanitize the texts, place every field at its
fixed coordinate, then clamp every line to exactly `CPL` characters. -/
def render_check_page (rec : PayRec) : List (List Char) :=
  let payee := sanitize rec.payee
  let memo := sanitize rec.memo
  let addr := rec.addr.map sanitize
  let page := blank_page
  let page := put page (ROW_DATE : Int) COL_DATE rec.date
  let page := put_right page (ROW_AMT_NUM : Int) AMT_RIGHT_COL (fmt2 rec.amount)
  let page := put page (ROW_PAYEE : Int) COL_PAYEE payee
  let page := put page (ROW_WORDS : Int) COL_WORDS (money_words rec.amount)
  let page := put_addr_lines page ROW_ADDR_START (addr.take 4)
  let page := put page (ROW_MEMO : Int) COL_MEMO memo
  let page := put page (ROW_STUB1 : Int) COL_STUB_LABEL "Payee:"
  let page := put page (ROW_STUB1 : Int) COL_STUB_VAL payee
  let page := put page ((ROW_STUB1 + 1 : ℕ) : Int) COL_STUB_LABEL "Date:"
  let page := put page ((ROW_STUB1 + 1 : ℕ) : Int) COL_STUB_VAL rec.date
  let page := put page ((ROW_STUB1 + 2 : ℕ) : Int) COL_STUB_LABEL "Amount:"
  let page := put page ((ROW_STUB1 + 2 : ℕ) : Int) COL_STUB_VAL ("$" ++ fmt2 rec.amount)
  let page := put page ((ROW_STUB1 + 3 : ℕ) : Int) COL_STUB_LABEL "Memo:"
  let page := put page ((ROW_STUB1 + 3 : ℕ) : Int) COL_STUB_VAL memo
  let page := put page (ROW_STUB2 : Int) COL_STUB_LABEL "Payee:"
  let page := put page (ROW_STUB2 : Int) COL_STUB_VAL payee
  let page := put page ((ROW_STUB2 + 1 : ℕ) : Int) COL_STUB_LABEL "Date:"
  let page := put page ((ROW_STUB2 + 1 : ℕ) : Int) COL_STUB_VAL rec.date
  let page := put page ((ROW_STUB2 + 2 : ℕ) : Int) COL_STUB_LABEL "Amount:"
  let page := put page ((ROW_STUB2 + 2 : ℕ) : Int) COL_STUB_VAL ("$" ++ fmt2 rec.amount)
  let page := put page ((ROW_STUB2 + 3 : ℕ) : Int) COL_STUB_LABEL "Memo:"
  let page := put page ((ROW_STUB2 + 3 : ℕ) : Int) COL_STUB_VAL memo
  page.map pad_line

/-! ## The `main` pipeline after reading the input (source lines 699–713) -/

/-- `CRLF`. -/
def CRLF : String := "\r\n"

/-- Form feed. -/
def FF : String := "\x0c"

/-- The outcome of the pure part of `main` on the decoded input lines:
either the no-records failure (carrying the debug-dump content: the first 400
raw lines with their indices) or the rendered pages together with the
device-bound text blob.  Writing the files, printing and renaming are the
external collaborators of §6 and are outside the model. -/
inductive MainResult where
  | noRecords (dump : List (ℕ × String))
  | rendered (preview : List (List (List Char))) (payload : String)
deriving DecidableEq, Repr

/-- The pure pipeline of `main`: extract records; if none, the debug-dump
outcome; otherwise render one trimmed page per record and join the pages with
form feeds into the device payload. -/
def main_outcome (raw_lines : List String) : MainResult :=
  let records := extract_records raw_lines
  if records.isEmpty then
    MainResult.noRecords (raw_lines.take 400).enum
  else
    let pages := records.map (fun r => trim_trailing_blank_lines (render_check_page r))
    let page_strs := pages.map (fun p => pyRstrip (pyJoin CRLF (p.map String.mk)))
    MainResult.rendered pages (pyJoin FF page_strs ++ FF)

/-! ## Helper lemmas: `getD`, padding, `put_loop`, `put` -/

theorem getD_append_space (arr : List Char) (k q : ℕ) :
    (arr ++ List.replicate k ' ').getD q ' ' = arr.getD q ' ' := by
  simp only [List.getD_eq_getElem?_getD, List.getElem?_append, List.getElem?_replicate]
  split
  · rfl
  · split <;> simp_all [List.getElem?_eq_none, le_of_not_lt]

theorem getD_set_eq (l : List Char) (i : ℕ) (a : Char) (q : ℕ) (d : Char) :
    (l.set i a).getD q d = if i = q ∧ i < l.length then a else l.getD q d := by
  simp only [List.getD_eq_getElem?_getD, List.getElem?_set]
  by_cases h1 : i = q
  · subst h1
    by_cases h2 : i < l.length
    · rw [if_pos rfl, if_pos h2, if_pos ⟨rfl, h2⟩]; rfl
    · rw [if_pos rfl, if_neg h2, if_neg (by tauto)]
      rw [List.getElem?_eq_none (by omega : l.length ≤ i)]
  · rw [if_neg h1, if_neg (by tauto)]

theorem put_loop_getD (t : List Char) :
    ∀ (arr : List Char) (col i q : ℕ),
      (put_loop arr col t i).getD q ' ' =
        if col + i ≤ q ∧ q < CPL ∧ q - (col + i) < t.length then t.getD (q - (col + i)) ' '
        else arr.getD q ' ' := by
  induction t with
  | nil => intro arr col i q; simp [put_loop]
  | cons ch rest ih =>
    intro arr col i q
    rw [put_loop]
    by_cases hcpl : CPL ≤ col + i
    · rw [if_pos hcpl]
      rw [if_neg (by rintro ⟨h1, h2, _⟩; omega)]
    · rw [if_neg hcpl]
      rw [ih]
      set arr2 := if arr.length ≤ col + i then
        arr ++ List.replicate (col + i + 1 - arr.length) ' ' else arr with harr2
      have harr2len : col + i < arr2.length := by
        rw [harr2]; split
        · simp only [List.length_append, List.length_replicate]; omega
        · omega
      have harr2get : ∀ q', arr2.getD q' ' ' = arr.getD q' ' ' := by
        intro q'; rw [harr2]; split
        · rw [getD_append_space]
        · rfl
      by_cases hq : q = col + i
      · subst hq
        rw [if_neg (by rintro ⟨h1, _, _⟩; omega)]
        rw [getD_set_eq, if_pos ⟨rfl, harr2len⟩]
        rw [if_pos ⟨le_refl _, by omega, by simp⟩]
        simp
      · rcases Nat.lt_or_ge q (col + i) with hlt | hge
        · rw [if_neg (by rintro ⟨h1, _, _⟩; omega)]
          rw [getD_set_eq, if_neg (by rintro ⟨h1, _⟩; omega), harr2get]
          rw [if_neg (by rintro ⟨h1, _, _⟩; omega)]
        · have hgt : col + i + 1 ≤ q := by omega
          by_cases hcnd : col + i ≤ q ∧ q < CPL ∧ q - (col + i) < (ch :: rest).length
          · rw [if_pos (show col + (i + 1) ≤ q ∧ q < CPL ∧ q - (col + (i + 1)) < rest.length by
              obtain ⟨h1, h2, h3⟩ := hcnd
              simp only [List.length_cons] at h3
              exact ⟨by omega, h2, by omega⟩)]
            rw [if_pos hcnd]
            have hq' : q - (col + i) = (q - (col + (i + 1))) + 1 := by omega
            rw [hq']
            simp
          · rw [if_neg (by
              intro hc
              apply hcnd
              obtain ⟨h1, h2, h3⟩ := hc
              refine ⟨by omega, h2, ?_⟩
              simp only [List.length_cons]
              omega)]
            rw [getD_set_eq, if_neg (by rintro ⟨h1, _⟩; exact hq h1.symm), harr2get]
            rw [if_neg hcnd]

theorem getD_set_self_line (buf : List (List Char)) (i : ℕ) (L : List Char)
    (h : i < buf.length) : (buf.set i L).getD i [] = L := by
  rw [List.getD_eq_getElem?_getD, List.getElem?_set, if_pos rfl, if_pos h]; rfl

theorem getD_set_other_line (buf : List (List Char)) (i r : ℕ) (L : List Char)
    (h : ¬i = r) : (buf.set i L).getD r [] = buf.getD r [] := by
  rw [List.getD_eq_getElem?_getD, List.getElem?_set, if_neg h, ← List.getD_eq_getElem?_getD]

/-- The single characterization of `put`: character `(r, q)` of the result. -/
theorem charAt_put (buf : List (List Char)) (row : Int) (col : ℕ) (text : String)
    (r q : ℕ) :
    charAt (put buf row col text) r q =
      if 0 ≤ row ∧ row < (buf.length : Int) ∧ r = row.toNat ∧ col ≤ q ∧ q < CPL ∧
          q - col < (asciiize text).data.length then
        (asciiize text).data.getD (q - col) ' '
      else charAt buf r q := by
  by_cases hrow : row < 0 ∨ (buf.length : Int) ≤ row
  · rw [put, if_pos hrow, if_neg (by rintro ⟨h0, hlen, _⟩; omega)]
  · rw [put, if_neg hrow]
    simp only [charAt]
    by_cases hr : row.toNat = r
    · subst hr
      rw [getD_set_self_line _ _ _ (by omega), put_loop_getD]
      simp only [Nat.add_zero]
      rw [show (if (buf.getD row.toNat []).length < col then
            buf.getD row.toNat [] ++ List.replicate (col - (buf.getD row.toNat []).length) ' '
          else buf.getD row.toNat []).getD q ' ' = (buf.getD row.toNat []).getD q ' ' from by
        split
        · rw [getD_append_space]
        · rfl]
      by_cases hc : col ≤ q ∧ q < CPL ∧ q - col < (asciiize text).data.length
      · rw [if_pos hc, if_pos ⟨by omega, by omega, by trivial, hc.1, hc.2.1, hc.2.2⟩]
      · rw [if_neg hc, if_neg (by rintro ⟨_, _, _, h4, h5, h6⟩; exact hc ⟨h4, h5, h6⟩)]
    · rw [getD_set_other_line _ _ _ _ hr]
      rw [if_neg (by rintro ⟨_, _, h3, _⟩; exact hr h3.symm)]

theorem length_put (buf : List (List Char)) (row : Int) (col : ℕ) (text : String) :
    (put buf row col text).length = buf.length := by
  rw [put]; split
  · rfl
  · simp

theorem getD_put_other_row (buf : List (List Char)) (row : Int) (col : ℕ)
    (text : String) (r' : ℕ) (h : (r' : Int) ≠ row) :
    (put buf row col text).getD r' [] = buf.getD r' [] := by
  rw [put]; split
  · rfl
  · rw [getD_set_other_line _ _ _ _ (by intro he; apply h; omega)]


/-! ## `asciiize` on ASCII text -/

theorem smartChar_ascii (c : Char) (h : c.toNat ≤ 127) : smartChar c = c := by
  unfold smartChar
  split_ifs with h1 h2 h3 h4 h5 h6 h7
  all_goals first
    | rfl
    | (subst_vars; exact absurd h (by decide))

theorem asciiize_ascii (s : String) (h : asciiOnly s = true) : asciiize s = s := by
  simp only [asciiOnly, List.all_eq_true, decide_eq_true_eq] at h
  unfold asciiize
  have hmap : s.data.map smartChar = s.data := by
    conv_rhs => rw [← List.map_id s.data]
    apply List.map_congr_left
    intro a ha
    exact smartChar_ascii a (h a ha)
  rw [hmap]
  rw [List.filter_eq_self.mpr (by intro a ha; exact decide_eq_true (h a ha))]

theorem asciiize_length_le (s : String) : (asciiize s).data.length ≤ s.data.length := by
  unfold asciiize
  calc ((s.data.map smartChar).filter (fun c => c.toNat ≤ 127)).length
      ≤ (s.data.map smartChar).length := List.length_filter_le _ _
    _ = s.data.length := List.length_map _ _

theorem string_length_eq_data (s : String) : s.length = s.data.length := rfl

theorem getD_last (l : List Char) (h : l ≠ []) (d : Char) :
    l.getD (l.length - 1) d = l.getLastD d := by
  rw [List.getD_eq_getElem?_getD, List.getLastD_eq_getLast?, List.getLast?_eq_getElem?]

/-! ## Claims C9, C10, C3: the placement operations -/

/-- **C9.**  The placement operation `put` never wraps and truncates at the
80-column boundary: for every page buffer, row, (natural) column and text, no
character at a column `≥ CPL = 80` is changed (writing beyond the current
line's length only pads with spaces, which `charAt` reads as unchanged), and
the concrete 90-character payee written at the payee column fills the line to
exactly 80 characters, with column 79 written and column 80 untouched.  The
operation is a total function, so it cannot raise. -/
theorem C9_put_truncates_never_wraps :
    (∀ (buf : List (List Char)) (row : Int) (col : ℕ) (text : String) (r q : ℕ),
        CPL ≤ q → charAt (put buf row col text) r q = charAt buf r q)
    ∧ ((put blank_page (ROW_PAYEE : Int) COL_PAYEE
        ⟨List.replicate 90 'X'⟩).getD ROW_PAYEE []).length = 80
    ∧ charAt (put blank_page (ROW_PAYEE : Int) COL_PAYEE
        ⟨List.replicate 90 'X'⟩) ROW_PAYEE 79 = 'X'
    ∧ charAt (put blank_page (ROW_PAYEE : Int) COL_PAYEE
        ⟨List.replicate 90 'X'⟩) ROW_PAYEE 80 = ' ' := by
  refine ⟨?_, by decide, by decide, by decide⟩
  intro buf row col text r q hq
  rw [charAt_put, if_neg (by rintro ⟨_, _, _, _, hlt, _⟩; omega)]

/-- Witness for C9 at a concrete input. -/
theorem C9_put_truncates_never_wraps_witness :
    charAt (put [['a']] 0 0 "hello") 0 85 = charAt [['a']] 0 85 :=
  C9_put_truncates_never_wraps.1 [['a']] 0 0 "hello" 0 85 (by decide)

/-- **C10.**  `put` modifies at most the line at the given row: every other
row of the buffer is unchanged, the number of lines is unchanged, and a
negative or too-large row index makes the call a no-op. -/
theorem C10_put_frame :
    (∀ (buf : List (List Char)) (row : Int) (col : ℕ) (text : String) (r' : ℕ),
        (r' : Int) ≠ row → (put buf row col text).getD r' [] = buf.getD r' [])
    ∧ (∀ (buf : List (List Char)) (row : Int) (col : ℕ) (text : String),
        (put buf row col text).length = buf.length)
    ∧ (∀ (buf : List (List Char)) (row : Int) (col : ℕ) (text : String),
        row < 0 ∨ (buf.length : Int) ≤ row → put buf row col text = buf) := by
  refine ⟨getD_put_other_row, length_put, ?_⟩
  intro buf row col text h
  rw [put, if_pos h]

/-- Witness for C10 at concrete inputs. -/
theorem C10_put_frame_witness :
    (put [['a'], ['b']] 0 0 "x").getD 1 [] = [['a'], ['b']].getD 1 []
    ∧ put [['a']] (-1) 0 "x" = [['a']] :=
  ⟨C10_put_frame.1 [['a'], ['b']] 0 0 "x" 1 (by decide),
   C10_put_frame.2.2 [['a']] (-1) 0 "x" (Or.inl (by decide))⟩

/-- **C3 counterexample.**  As stated the claim is false: when the text is
longer than the boundary column itself, the clamped start column 0 makes the
written text extend past the boundary.  Here the boundary is 1-based column 3
(0-based index `C 3 = 2`) and the 6-character text `"abcdef"` writes its
`'f'` at column index 5, strictly past the boundary (the original buffer read
a space there). -/
theorem C3_put_right_counterexample :
    C 3 < 5 ∧ charAt [([] : List Char)] 0 5 = ' '
    ∧ charAt (put_right [([] : List Char)] 0 3 "abcdef") 0 5 = 'f' := by
  refine ⟨by decide, by decide, by decide⟩

/-- **C3 (amended).**  `put_right` computes the start column as
`right_boundary - length(text) + 1` clamped to ≥ 0 and writes left-to-right
from there.  Provided the text fits, i.e. its length is at most the 1-based
boundary column, nothing past the boundary column is changed, and (for ASCII
text, an in-range row and a boundary within the page) the last character of
the text lands exactly on the boundary column. -/
theorem C3_put_right_amended :
    (∀ (buf : List (List Char)) (row : Int) (rb : ℕ) (text : String),
        put_right buf row rb text = put buf row (C rb + 1 - text.length) text)
    ∧ (∀ (buf : List (List Char)) (row : Int) (rb : ℕ) (text : String) (r q : ℕ),
        text.length ≤ rb → C rb < q →
        charAt (put_right buf row rb text) r q = charAt buf r q)
    ∧ (∀ (buf : List (List Char)) (row : Int) (rb : ℕ) (text : String),
        asciiOnly text = true → text.data ≠ [] → 0 ≤ row → row < (buf.length : Int) →
        text.length ≤ rb → rb ≤ CPL →
        charAt (put_right buf row rb text) row.toNat (C rb) = text.data.getLastD ' ') := by
  refine ⟨fun _ _ _ _ => rfl, ?_, ?_⟩
  · intro buf row rb text r q hfit hq
    have hale := asciiize_length_le text
    rw [put_right, charAt_put, if_neg ?_]
    rintro ⟨_, _, _, hcq, hcpl, hin⟩
    rw [string_length_eq_data] at hfit hcq hin
    simp only [C] at hq hcq hin
    omega
  · intro buf row rb text hascii hne h0 hlt hfit hrb
    have hpos : 1 ≤ text.data.length := by
      rcases h : text.data with _ | ⟨c, cs⟩
      · exact absurd h hne
      · simp
    rw [string_length_eq_data] at hfit
    rw [put_right, charAt_put, asciiize_ascii text hascii]
    have hcond : 0 ≤ row ∧ row < (buf.length : Int) ∧ row.toNat = row.toNat ∧
        (C rb + 1 - text.length) ≤ C rb ∧ C rb < CPL ∧
        C rb - (C rb + 1 - text.length) < text.data.length := by
      refine ⟨h0, hlt, rfl, ?_, ?_, ?_⟩
      · rw [string_length_eq_data]; simp only [C]; omega
      · simp only [C, CPL] at hrb ⊢; omega
      · rw [string_length_eq_data]; simp only [C]; omega
    rw [if_pos hcond]
    rw [show C rb - (C rb + 1 - text.length) = text.data.length - 1 from by
      rw [string_length_eq_data]; simp only [C]; omega]
    exact getD_last _ hne ' ' 

/-- Witness for C3's amended theorem at a concrete input: a 6-character
amount right-aligned at 1-based column 73 leaves column index 73 untouched
and puts its last character at column index 72. -/
theorem C3_put_right_amended_witness :
    charAt (put_right blank_page 6 73 "123.45") 0 73 = charAt blank_page 0 73
    ∧ charAt (put_right blank_page 6 73 "123.45") 6 72 = '5' :=
  ⟨C3_put_right_amended.2.1 blank_page 6 73 "123.45" 0 73 (by decide) (by decide),
   C3_put_right_amended.2.2 blank_page 6 73 "123.45" (by decide) (by decide)
     (by decide) (by decide) (by decide) (by decide)⟩

/-! ## Claim C2: cast plumbing -/

theorem fdiv_cast (m n : ℕ) : (m : ℤ).fdiv (n : ℤ) = ((m / n : ℕ) : ℤ) := by
  have h1 : (m : ℤ).fdiv (n : ℤ) = (m : ℤ) / (n : ℤ) :=
    Int.fdiv_eq_ediv _ (by positivity)
  have h2 : ((m : ℤ)).tdiv (n : ℤ) = (m : ℤ) / (n : ℤ) :=
    Int.tdiv_eq_ediv (by positivity) (by positivity)
  rw [h1, ← h2, ← Int.ofNat_tdiv]

theorem fmod_cast (m n : ℕ) : (m : ℤ).fmod (n : ℤ) = ((m % n : ℕ) : ℤ) := by
  rw [Int.fmod_eq_emod _ (by positivity)]
  push_cast
  rfl

theorem fdiv10_cast (m : ℕ) : (m : ℤ).fdiv 10 = ((m / 10 : ℕ) : ℤ) := by
  have := fdiv_cast m 10; norm_num at this; exact this

theorem fdiv100_cast (m : ℕ) : (m : ℤ).fdiv 100 = ((m / 100 : ℕ) : ℤ) := by
  have := fdiv_cast m 100; norm_num at this; exact this

theorem fmod10_cast (m : ℕ) : (m : ℤ).fmod 10 = ((m % 10 : ℕ) : ℤ) := by
  have := fmod_cast m 10; norm_num at this; exact this

theorem fmod100_cast (m : ℕ) : (m : ℤ).fmod 100 = ((m % 100 : ℕ) : ℤ) := by
  have := fmod_cast m 100; norm_num at this; exact this

theorem small_getD_eq : ∀ k < 20, small.getD k "" = specSmallWord k := by decide

theorem tens_getD_eq : ∀ k < 10, 2 ≤ k → tens.getD k "" = specTensWord k := by decide

theorem up_to_999_parts_eq (m : ℕ) (hm1 : 1 ≤ m) (hm2 : m < 1000) :
    up_to_999_parts (m : ℤ) = specHundreds m := by
  simp only [up_to_999_parts, specHundreds, specBelowHundred]
  by_cases h100 : 100 ≤ m
  · have hc : (100 : ℤ) ≤ (m : ℤ) := by exact_mod_cast h100
    simp only [if_pos hc, fdiv100_cast, fmod100_cast, Int.toNat_ofNat]
    rw [if_neg (show ¬(m / 100 = 0) from by omega)]
    rw [small_getD_eq (m / 100) (by omega)]
    by_cases h20 : 20 ≤ m % 100
    · have hc20 : (20 : ℤ) ≤ ((m % 100 : ℕ) : ℤ) := by exact_mod_cast h20
      simp only [if_pos hc20, fdiv10_cast, fmod10_cast, Int.toNat_ofNat]
      rw [if_neg (show ¬(m % 100 = 0) from by omega),
        if_neg (show ¬(m % 100 < 20) from by omega)]
      rw [tens_getD_eq (m % 100 / 10) (by omega) (by omega)]
      by_cases hd : m % 100 % 10 = 0
      · rw [if_neg (show ¬(((m % 100 % 10 : ℕ) : ℤ) ≠ 0) from by
          simp [hd]), if_pos hd]
        simp
      · rw [if_pos (show (((m % 100 % 10 : ℕ) : ℤ) ≠ 0) from by
          exact_mod_cast hd), if_neg hd]
        rw [small_getD_eq (m % 100 % 10) (by omega)]
        simp
    · have hc20 : ¬((20 : ℤ) ≤ ((m % 100 : ℕ) : ℤ)) := by exact_mod_cast h20
      rw [if_neg hc20]
      by_cases h0 : m % 100 = 0
      · rw [if_neg (show ¬((0 : ℤ) < ((m % 100 : ℕ) : ℤ)) from by
          simp [h0]), if_pos h0]
        simp
      · rw [if_pos (show (0 : ℤ) < ((m % 100 : ℕ) : ℤ) from by
          exact_mod_cast Nat.pos_of_ne_zero h0), if_neg h0,
          if_pos (show m % 100 < 20 from by omega)]
        rw [small_getD_eq (m % 100) (by omega)]
  · have hc : ¬((100 : ℤ) ≤ (m : ℤ)) := by exact_mod_cast h100
    simp only [if_neg hc]
    rw [if_pos (show m / 100 = 0 from by omega)]
    have hm100 : m % 100 = m := Nat.mod_eq_of_lt (by omega)
    rw [hm100]
    by_cases h20 : 20 ≤ m
    · have hc20 : (20 : ℤ) ≤ (m : ℤ) := by exact_mod_cast h20
      simp only [if_pos hc20, fdiv10_cast, fmod10_cast, Int.toNat_ofNat]
      rw [if_neg (show ¬(m = 0) from by omega), if_neg (show ¬(m < 20) from by omega)]
      rw [tens_getD_eq (m / 10) (by omega) (by omega)]
      by_cases hd : m % 10 = 0
      · rw [if_neg (show ¬(((m % 10 : ℕ) : ℤ) ≠ 0) from by simp [hd]), if_pos hd]
        simp
      · rw [if_pos (show (((m % 10 : ℕ) : ℤ) ≠ 0) from by exact_mod_cast hd), if_neg hd]
        rw [small_getD_eq (m % 10) (by omega)]
        simp
    · have hc20 : ¬((20 : ℤ) ≤ (m : ℤ)) := by exact_mod_cast h20
      simp only [if_neg hc20]
      rw [if_pos (show (0 : ℤ) < (m : ℤ) from by exact_mod_cast hm1),
        if_neg (show ¬(m = 0) from by omega), if_pos (show m < 20 from by omega)]
      simp only [Int.toNat_ofNat]
      rw [small_getD_eq m (by omega)]

/-! ## Claim C2: joining word lists -/

theorem pyJoin_single (x : String) : pyJoin " " [x] = x := rfl

theorem pyJoin_cons (a : String) (rest : List String) (h : rest ≠ []) :
    pyJoin " " (a :: rest) = a ++ " " ++ pyJoin " " rest := by
  cases rest with
  | nil => exact absurd rfl h
  | cons b tl => rfl

theorem pyJoin_append (xs ys : List String) (hx : xs ≠ []) (hy : ys ≠ []) :
    pyJoin " " (xs ++ ys) = pyJoin " " xs ++ " " ++ pyJoin " " ys := by
  induction xs with
  | nil => exact absurd rfl hx
  | cons a tl ih =>
    cases tl with
    | nil =>
      simp only [List.singleton_append, pyJoin_single]
      exact pyJoin_cons a ys hy
    | cons b tl2 =>
      rw [List.cons_append, pyJoin_cons a ((b :: tl2) ++ ys) (by simp),
        pyJoin_cons a (b :: tl2) (by simp), ih (by simp)]
      simp [String.append_assoc]

theorem pyJoin_map_flatten (gs : List (List String)) (h : ∀ g ∈ gs, g ≠ []) :
    pyJoin " " (gs.map (pyJoin " ")) = pyJoin " " gs.flatten := by
  induction gs with
  | nil => rfl
  | cons g tl ih =>
    cases tl with
    | nil => simp [pyJoin_single]
    | cons g2 tl2 =>
      have hg : g ≠ [] := h g (by simp)
      have htl2 : ∀ x ∈ g2 :: tl2, x ≠ [] := fun x hx => h x (by simp [hx])
      have hflat : (g2 :: tl2).flatten ≠ [] := by
        have hg2 : g2 ≠ [] := htl2 g2 (by simp)
        rw [List.flatten_cons]
        cases g2 with
        | nil => exact absurd rfl hg2
        | cons c cs => simp
      rw [List.map_cons, pyJoin_cons (pyJoin " " g) _ (by simp), ih htl2]
      conv_rhs => rw [List.flatten_cons]
      rw [pyJoin_append g (g2 :: tl2).flatten hg hflat]

/-! ## Claim C2: `chunk` agrees with the specification spelling -/

theorem fdiv_e9_cast (m : ℕ) : (m : ℤ).fdiv 1000000000 = ((m / 1000000000 : ℕ) : ℤ) := by
  have := fdiv_cast m 1000000000; norm_num at this; exact this

theorem fdiv_e6_cast (m : ℕ) : (m : ℤ).fdiv 1000000 = ((m / 1000000 : ℕ) : ℤ) := by
  have := fdiv_cast m 1000000; norm_num at this; exact this

theorem fdiv_e3_cast (m : ℕ) : (m : ℤ).fdiv 1000 = ((m / 1000 : ℕ) : ℤ) := by
  have := fdiv_cast m 1000; norm_num at this; exact this

theorem fmod_e9_cast (m : ℕ) : (m : ℤ).fmod 1000000000 = ((m % 1000000000 : ℕ) : ℤ) := by
  have := fmod_cast m 1000000000; norm_num at this; exact this

theorem fmod_e6_cast (m : ℕ) : (m : ℤ).fmod 1000000 = ((m % 1000000 : ℕ) : ℤ) := by
  have := fmod_cast m 1000000; norm_num at this; exact this

theorem fmod_e3_cast (m : ℕ) : (m : ℤ).fmod 1000 = ((m % 1000 : ℕ) : ℤ) := by
  have := fmod_cast m 1000; norm_num at this; exact this

theorem up_to_999_eq (g : ℕ) (h1 : 1 ≤ g) (h2 : g < 1000) :
    up_to_999 (g : ℤ) = pyJoin " " (specHundreds g) := by
  rw [up_to_999, up_to_999_parts_eq g h1 h2]

theorem chunk_parts_eq (m : ℕ) (hm : m < 1000000000000) :
    chunk_parts (m : ℤ) = (specSegs m).map (pyJoin " ") := by
  have e1 : (if (1000000000 : ℤ) ≤ (m : ℤ) then (m : ℤ).fmod 1000000000 else (m : ℤ)) =
      ((m % 1000000000 : ℕ) : ℤ) := by
    split_ifs with h
    · exact fmod_e9_cast m
    · have : m % 1000000000 = m := Nat.mod_eq_of_lt (by exact_mod_cast not_le.mp h)
      rw [this]
  simp only [chunk_parts]
  rw [e1]
  have e2 : (if (1000000 : ℤ) ≤ ((m % 1000000000 : ℕ) : ℤ) then
      ((m % 1000000000 : ℕ) : ℤ).fmod 1000000 else ((m % 1000000000 : ℕ) : ℤ)) =
      ((m % 1000000 : ℕ) : ℤ) := by
    split_ifs with h
    · rw [fmod_e6_cast]; norm_cast; omega
    · norm_cast; omega
  rw [e2]
  have e3 : (if (1000 : ℤ) ≤ ((m % 1000000 : ℕ) : ℤ) then
      ((m % 1000000 : ℕ) : ℤ).fmod 1000 else ((m % 1000000 : ℕ) : ℤ)) =
      ((m % 1000 : ℕ) : ℤ) := by
    split_ifs with h
    · rw [fmod_e3_cast]; norm_cast; omega
    · norm_cast; omega
  rw [e3, fdiv_e9_cast, fdiv_e6_cast, fdiv_e3_cast]
  simp only [specSegs, List.map_append, apply_ite (List.map (pyJoin " ")),
    List.map_cons, List.map_nil, pyJoin_single]
  congr 1
  rotate_left
  · by_cases hb : 0 < m % 1000
    · rw [if_pos (by exact_mod_cast hb : (0 : ℤ) < ((m % 1000 : ℕ) : ℤ)),
        if_neg (show ¬(m % 1000 = 0) from by omega),
        up_to_999_eq (m % 1000) (by omega) (by omega)]
    · rw [if_neg (by exact_mod_cast hb : ¬((0 : ℤ) < ((m % 1000 : ℕ) : ℤ))),
        if_pos (show m % 1000 = 0 from by omega)]
  congr 1
  rotate_left
  · by_cases hb : 1000 ≤ m % 1000000
    · rw [if_pos (by exact_mod_cast hb : (1000 : ℤ) ≤ ((m % 1000000 : ℕ) : ℤ)),
        if_neg (show ¬(m / 1000 % 1000 = 0) from by omega),
        up_to_999_eq (m % 1000000 / 1000) (by omega) (by omega),
        show m % 1000000 / 1000 = m / 1000 % 1000 from by omega]
    · rw [if_neg (by exact_mod_cast hb : ¬((1000 : ℤ) ≤ ((m % 1000000 : ℕ) : ℤ))),
        if_pos (show m / 1000 % 1000 = 0 from by omega)]
  congr 1
  · by_cases hb : 1000000000 ≤ m
    · rw [if_pos (by exact_mod_cast hb : (1000000000 : ℤ) ≤ (m : ℤ)),
        if_neg (show ¬(m / 1000000000 % 1000 = 0) from by omega),
        up_to_999_eq (m / 1000000000) (by omega) (by omega),
        show m / 1000000000 % 1000 = m / 1000000000 from by omega]
    · rw [if_neg (by exact_mod_cast hb : ¬((1000000000 : ℤ) ≤ (m : ℤ))),
        if_pos (show m / 1000000000 % 1000 = 0 from by omega)]
  · by_cases hb : 1000000 ≤ m % 1000000000
    · rw [if_pos (by exact_mod_cast hb : (1000000 : ℤ) ≤ ((m % 1000000000 : ℕ) : ℤ)),
        if_neg (show ¬(m / 1000000 % 1000 = 0) from by omega),
        up_to_999_eq (m % 1000000000 / 1000000) (by omega) (by omega),
        show m % 1000000000 / 1000000 = m / 1000000 % 1000 from by omega]
    · rw [if_neg (by exact_mod_cast hb : ¬((1000000 : ℤ) ≤ ((m % 1000000000 : ℕ) : ℤ))),
        if_pos (show m / 1000000 % 1000 = 0 from by omega)]

theorem specHundreds_ne_nil (g : ℕ) (h : g ≠ 0) : specHundreds g ≠ [] := by
  simp only [specHundreds, specBelowHundred]
  by_cases hh : g / 100 = 0
  · rw [if_pos hh]
    have hlt : g % 100 = g := Nat.mod_eq_of_lt (by omega)
    rw [hlt, if_neg h]
    split_ifs <;> simp
  · rw [if_neg hh]; simp

theorem mem_ite_pair {x a b : List String} {c : Prop} [Decidable c]
    (h : x ∈ (if c then [] else [a, b])) : ¬c ∧ (x = a ∨ x = b) := by
  by_cases hc : c
  · rw [if_pos hc] at h
    simp at h
  · rw [if_neg hc] at h
    simp only [List.mem_cons, List.mem_singleton, List.not_mem_nil, or_false] at h
    exact ⟨hc, h⟩

theorem mem_ite_single {x a : List String} {c : Prop} [Decidable c]
    (h : x ∈ (if c then [] else [a])) : ¬c ∧ x = a := by
  by_cases hc : c
  · rw [if_pos hc] at h
    simp at h
  · rw [if_neg hc] at h
    simp only [List.mem_singleton] at h
    exact ⟨hc, h⟩

theorem specSegs_mem_ne_nil (m : ℕ) : ∀ g ∈ specSegs m, g ≠ [] := by
  intro g hg
  simp only [specSegs, List.mem_append] at hg
  rcases hg with ((h | h) | h) | h
  · obtain ⟨hc, rfl | rfl⟩ := mem_ite_pair h
    · exact specHundreds_ne_nil _ hc
    · simp
  · obtain ⟨hc, rfl | rfl⟩ := mem_ite_pair h
    · exact specHundreds_ne_nil _ hc
    · simp
  · obtain ⟨hc, rfl | rfl⟩ := mem_ite_pair h
    · exact specHundreds_ne_nil _ hc
    · simp
  · obtain ⟨hc, rfl⟩ := mem_ite_single h
    exact specHundreds_ne_nil _ hc

theorem specSegs_ne_nil (m : ℕ) (h0 : m ≠ 0) (hm : m < 1000000000000) :
    specSegs m ≠ [] := by
  simp only [specSegs]
  by_cases c1 : m / 1000000000 % 1000 = 0 <;> by_cases c2 : m / 1000000 % 1000 = 0 <;>
    by_cases c3 : m / 1000 % 1000 = 0 <;> by_cases c4 : m % 1000 = 0 <;>
    simp [c1, c2, c3, c4] <;> omega

theorem chunk_eq_spec (m : ℕ) (hm : m < 1000000000000) :
    chunk (m : ℤ) = pyJoin " " (specSpell m) := by
  by_cases h0 : m = 0
  · subst h0; rfl
  · simp only [chunk]
    rw [chunk_parts_eq m hm]
    rw [if_neg (show ¬(((specSegs m).map (pyJoin " ")).isEmpty = true) from by
      rw [List.isEmpty_iff, List.map_eq_nil]
      exact specSegs_ne_nil m h0 hm)]
    rw [pyJoin_map_flatten _ (specSegs_mem_ne_nil m), specSpell, if_neg h0]

/-! ## Claim C2: the full money phrase -/

theorem pyFmt02d_eq : ∀ c < 100, pyFmt02d ((c : ℕ) : ℤ) = specPad2 c := by decide

theorem tdiv_cents (m c : ℕ) (hc : c < 100) :
    (100 * (m : ℤ) + c).tdiv 100 = (m : ℤ) := by
  rw [Int.tdiv_eq_ediv (by positivity) (by norm_num)]
  omega

theorem tmod_cents (m c : ℕ) (hc : c < 100) :
    (100 * (m : ℤ) + c).tmod 100 = (c : ℤ) := by
  rw [Int.tmod_eq_emod (by positivity) (by norm_num)]
  omega

theorem money_words_eq_spec (m c : ℕ) (hm : m < 1000000000000) (hc : c < 100) :
    money_words (100 * (m : ℤ) + c) = spec_money_phrase m c := by
  simp only [money_words, spec_money_phrase]
  rw [tdiv_cents m c hc, tmod_cents m c hc, chunk_eq_spec m hm, pyFmt02d_eq c hc]
  by_cases h1 : m = 1
  · rw [if_pos (by exact_mod_cast h1), if_pos h1]
  · rw [if_neg (by exact_mod_cast h1), if_neg h1]


/-- **C2.**  For every non-negative decimal amount with exactly two fraction
digits up to the billions place — represented exactly as `100 * m + c` cents —
`money_words` produces the phrase demanded by the specification: the
short-scale English spelling of the integer part, `" dollar"` when the integer
part is exactly 1 and `" dollars"` otherwise (0 spelling as `"zero dollars"`),
followed by `" and NN/100"` with the zero-padded cent value, capitalised only
at its first letter; moreover the specification's concrete examples hold. -/
theorem C2_money_words :
    (∀ (m c : ℕ), m ≤ 999999999999 → c < 100 →
        money_words (100 * (m : ℤ) + (c : ℤ)) = spec_money_phrase m c)
    ∧ money_words 0 = "Zero dollars and 00/100"
    ∧ money_words 100 = "One dollar and 00/100"
    ∧ money_words 100005 = "One thousand dollars and 05/100" := by
  refine ⟨fun m c hm hc => money_words_eq_spec m c (by omega) hc, ?_, ?_, ?_⟩
  · decide
  · decide
  · decide

/-- Witness for C2 at the specification's `1000.05` example. -/
theorem C2_money_words_witness :
    money_words (100 * ((1000 : ℕ) : ℤ) + ((5 : ℕ) : ℤ)) = spec_money_phrase 1000 5 :=
  C2_money_words.1 1000 5 (by norm_num) (by norm_num)


/-! ## Claim C6: generic search lemmas -/

theorem findSome?_range_none {β : Type} (f : ℕ → Option β) (n : ℕ)
    (h : (List.range n).findSome? f = none) : ∀ p < n, f p = none := by
  intro p hp
  exact (List.findSome?_eq_none_iff.mp h) p (List.mem_range.mpr hp)

theorem findSome?_range_some {β : Type} :
    ∀ (n : ℕ) (f : ℕ → Option β) (b : β),
      (List.range n).findSome? f = some b →
      ∃ p < n, f p = some b ∧ ∀ q < p, f q = none := by
  intro n
  induction n with
  | zero => intro f b h; simp [List.range_zero] at h
  | succ n ih =>
    intro f b h
    rw [List.range_succ_eq_map, List.findSome?_cons] at h
    rcases h0 : f 0 with _ | b0
    · rw [h0] at h
      simp only at h
      rw [List.findSome?_map] at h
      obtain ⟨p, hp, hsome, hearlier⟩ := ih (f ∘ Nat.succ) b h
      refine ⟨p + 1, by omega, hsome, ?_⟩
      intro q hq
      cases q with
      | zero => exact h0
      | succ q' => exact hearlier q' (by omega)
    · rw [h0] at h
      simp only at h
      refine ⟨0, by omega, by rw [h0, ← h], ?_⟩
      intro q hq
      omega

theorem findSome?_range_ne_none {β : Type} (f : ℕ → Option β) (n p : ℕ)
    (hp : p < n) (h : f p ≠ none) : (List.range n).findSome? f ≠ none := by
  intro hall
  exact h (findSome?_range_none f n hall p hp)

/-! ## Claim C6: digit runs -/

theorem digitsRun_le : ∀ l : List Char, digitsRun l ≤ l.length
  | [] => by simp [digitsRun]
  | c :: cs => by
    rw [digitsRun]
    split <;> simp only [List.length_cons]
    · have := digitsRun_le cs
      omega
    · omega

theorem digitsRun_take_all : ∀ l : List Char, ((l.take (digitsRun l)).all Char.isDigit) = true
  | [] => by simp [digitsRun]
  | c :: cs => by
    rw [digitsRun]
    split
    · rw [List.take_succ_cons, List.all_cons]
      simp only [Bool.and_eq_true]
      exact ⟨by assumption, digitsRun_take_all cs⟩
    · simp

theorem digitsRun_after : ∀ l : List Char, (((l.drop (digitsRun l)).headD 'x').isDigit) = false
  | [] => by simp [digitsRun]
  | c :: cs => by
    rw [digitsRun]
    split
    · rw [List.drop_succ_cons]
      exact digitsRun_after cs
    · simp only [List.drop_zero, List.headD_cons]
      simp_all

theorem digitsRun_ge : ∀ (l : List Char) (k : ℕ), k ≤ l.length →
    ((l.take k).all Char.isDigit) = true → k ≤ digitsRun l := by
  intro l
  induction l with
  | nil => intro k hk _; simp at hk; omega
  | cons c cs ih =>
    intro k hk hall
    cases k with
    | zero => omega
    | succ k' =>
      rw [List.take_succ_cons, List.all_cons, Bool.and_eq_true] at hall
      rw [digitsRun, if_pos hall.1]
      have := ih k' (by simp at hk; omega) hall.2
      omega

theorem take_all_of_le (l : List Char) (k j : ℕ) (hj : j ≤ k)
    (h : ((l.take k).all Char.isDigit) = true) : ((l.take j).all Char.isDigit) = true := by
  rw [List.all_eq_true] at h ⊢
  intro x hx
  apply h
  have : l.take j = (l.take k).take j := by
    rw [List.take_take, Nat.min_eq_left hj]
  rw [this] at hx
  exact List.take_subset _ _ hx

theorem digitsRun_append_exact (D rest : List Char) (hD : (D.all Char.isDigit) = true)
    (hrest : ((rest.headD 'x').isDigit) = false) : digitsRun (D ++ rest) = D.length := by
  induction D with
  | nil =>
    simp only [List.nil_append, List.length_nil]
    cases rest with
    | nil => simp [digitsRun]
    | cons c cs =>
      rw [digitsRun]
      simp only [List.headD_cons] at hrest
      rw [if_neg (by simp [hrest])]
  | cons c cs ih =>
    rw [List.all_cons, Bool.and_eq_true] at hD
    rw [List.cons_append, digitsRun, if_pos hD.1, ih hD.2]
    simp

/-! ## Claim C6: thousands groups -/

theorem groupedTail_inv (G : List Char) (h : groupedTail G = true) :
    G = [] ∨ ∃ a b c rest, G = ',' :: a :: b :: c :: rest ∧ a.isDigit = true ∧
      b.isDigit = true ∧ c.isDigit = true ∧ groupedTail rest = true := by
  unfold groupedTail at h
  split at h
  · left; rfl
  · right
    rename_i a b c rest
    simp only [Bool.and_eq_true] at h
    exact ⟨a, b, c, rest, rfl, h.1.1.1, h.1.1.2, h.1.2, h.2⟩
  · simp at h

theorem starMax_pos_shape (l : List Char) (h : 1 ≤ starMax l) :
    ∃ a b c rest, l = ',' :: a :: b :: c :: rest ∧ a.isDigit = true ∧
      b.isDigit = true ∧ c.isDigit = true ∧ starMax l = starMax rest + 1 := by
  unfold starMax at h
  split at h
  · rename_i a b c rest
    split_ifs at h with hd
    · simp only [Bool.and_eq_true] at hd
      refine ⟨a, b, c, rest, rfl, hd.1.1, hd.1.2, hd.2, ?_⟩
      rw [starMax]
      rw [if_pos (by simp [hd.1.1, hd.1.2, hd.2])]
    · omega
  · omega

theorem starMax_comma_digits (a b c : Char) (rest : List Char)
    (ha : a.isDigit = true) (hb : b.isDigit = true) (hc : c.isDigit = true) :
    starMax (',' :: a :: b :: c :: rest) = starMax rest + 1 := by
  rw [starMax, if_pos (by simp [ha, hb, hc])]

theorem starMax_take : ∀ (j : ℕ) (l : List Char), j ≤ starMax l →
    groupedTail (l.take (4 * j)) = true ∧ 4 * j ≤ l.length ∧
      (1 ≤ j → l.headD 'x' = ',') := by
  intro j
  induction j with
  | zero => intro l _; refine ⟨rfl, by omega, by omega⟩
  | succ j' ih =>
    intro l hj
    obtain ⟨a, b, c, rest, rfl, ha, hb, hc, heq⟩ := starMax_pos_shape l (by omega)
    obtain ⟨ih1, ih2, _⟩ := ih rest (by omega)
    refine ⟨?_, ?_, fun _ => rfl⟩
    · rw [show 4 * (j' + 1) = 4 * j' + 1 + 1 + 1 + 1 from by ring]
      simp only [List.take_succ_cons]
      simp [groupedTail, ha, hb, hc, ih1]
    · simp only [List.length_cons]
      omega

theorem groupedTail_starMax : ∀ (G rest : List Char), groupedTail G = true →
    ∃ j, G.length = 4 * j ∧ j ≤ starMax (G ++ rest)
  | G, rest, h => by
    rcases groupedTail_inv G h with rfl | ⟨a, b, c, g', rfl, ha, hb, hc, hg⟩
    · exact ⟨0, rfl, by omega⟩
    · obtain ⟨j, hl, hle⟩ := groupedTail_starMax g' rest hg
      refine ⟨j + 1, by simp [hl]; ring, ?_⟩
      simp only [List.cons_append]
      rw [starMax_comma_digits a b c (g' ++ rest) ha hb hc]
      omega
  termination_by G _ _ => G.length


/-! ## Claim C6: token-shape lemmas -/

theorem amtTail_spec (x : List Char) (h : amtTail x = true) :
    ∃ a b rest, x = '.' :: a :: b :: rest ∧ a.isDigit = true ∧ b.isDigit = true ∧
      ((rest.headD 'x').isDigit) = false := by
  unfold amtTail at h
  split at h
  · rename_i a b rest
    simp only [Bool.and_eq_true, Bool.not_eq_true'] at h
    exact ⟨a, b, rest, rfl, h.1.1, h.1.2, h.2⟩
  · simp at h

theorem fracShape_append (x : List Char) (a b : Char) :
    fracShape (x ++ ['.', a, b]) = (a.isDigit && b.isDigit && intShape x) := by
  unfold fracShape
  rw [show (x ++ ['.', a, b]).reverse = b :: a :: '.' :: x.reverse from by simp]
  simp

theorem fracShape_inv (r : List Char) (h : fracShape r = true) :
    ∃ x a b, r = x ++ ['.', a, b] ∧ a.isDigit = true ∧ b.isDigit = true ∧
      intShape x = true := by
  unfold fracShape at h
  split at h
  · rename_i b a irev heq
    simp only [Bool.and_eq_true] at h
    refine ⟨irev.reverse, a, b, ?_, h.1.1, h.1.2, h.2⟩
    have := congrArg List.reverse heq
    simp only [List.reverse_reverse] at this
    rw [this]
    simp
  · simp at h

theorem tokenShape_no_sign (t : List Char) (h : ¬t.headD 'x' = '-') :
    tokenShape t = fracShape t := by
  unfold tokenShape
  rw [if_neg h]

theorem tokenShape_sign (r : List Char) : tokenShape ('-' :: r) = fracShape r := by
  unfold tokenShape
  rw [if_pos (by simp)]
  rfl

theorem intShape_ne_nil (x : List Char) (h : intShape x = true) : x ≠ [] := by
  intro hx
  subst hx
  simp [intShape] at h

theorem intShape_head (x : List Char) (h : intShape x = true) :
    ((x.headD 'x').isDigit) = true := by
  unfold intShape at h
  simp only [Bool.or_eq_true, Bool.and_eq_true, Bool.not_eq_true', decide_eq_true_eq] at h
  cases x with
  | nil => simp at h
  | cons c cs =>
    rcases h with ⟨_, hall⟩ | ⟨⟨h1, _⟩, _⟩
    · rw [List.all_cons, Bool.and_eq_true] at hall
      simpa using hall.1
    · rw [List.takeWhile_cons] at h1
      by_cases hc : c.isDigit
      · simpa using hc
      · rw [if_neg (by simp [hc])] at h1
        simp at h1

theorem intShape_plain (x : List Char) (h1 : x ≠ []) (h2 : (x.all Char.isDigit) = true) :
    intShape x = true := by
  unfold intShape
  simp [h1, h2]

theorem headD_take (l : List Char) (n : ℕ) (hn : 1 ≤ n) :
    (l.take n).headD 'x' = l.headD 'x' := by
  cases l with
  | nil => simp
  | cons c cs =>
    cases n with
    | zero => omega
    | succ n' => simp

theorem intShape_grouped (D G : List Char) (hD1 : 1 ≤ D.length) (hD3 : D.length ≤ 3)
    (hDd : (D.all Char.isDigit) = true) (hG : groupedTail G = true)
    (hGh : G = [] ∨ G.headD 'x' = ',') : intShape (D ++ G) = true := by
  rcases hGh with rfl | hGh
  · exact intShape_plain _ (by simp; intro hD; subst hD; simp at hD1) (by simpa using hDd)
  · have htw : (D ++ G).takeWhile Char.isDigit = D := by
      have hGnd : ((G.headD 'x').isDigit) = false := by rw [hGh]; decide
      clear hG hGh hD1 hD3
      induction D with
      | nil =>
        cases G with
        | nil => rfl
        | cons g gs =>
          simp only [List.headD_cons] at hGnd
          simp [List.takeWhile_cons, hGnd]
      | cons d ds ih =>
        rw [List.all_cons, Bool.and_eq_true] at hDd
        simp only [List.cons_append, List.takeWhile_cons, hDd.1]
        rw [if_pos (by simp [hDd.1])]
        rw [ih hDd.2]
    unfold intShape
    rw [htw]
    have hdrop : (D ++ G).drop D.length = G := List.drop_left D G
    rw [hdrop]
    simp [hD1, hD3, hG]

/-! ## Claim C6: soundness of the compiled matcher -/

theorem amtB2_sound (l : List Char) (k : ℕ) (h : amtB2 l = some k) :
    ∃ L, k = L + 3 ∧ 1 ≤ L ∧ L ≤ l.length ∧ intShape (l.take L) = true ∧
      amtTail (l.drop L) = true := by
  simp only [amtB2] at h
  obtain ⟨t, ht, hsome, _⟩ := findSome?_range_some _ _ _ h
  split_ifs at hsome with htail
  · injection hsome with hk
    refine ⟨digitsRun l - t, by omega, by omega, by have := digitsRun_le l; omega, ?_, htail⟩
    exact intShape_plain _
      (by
        intro hnil
        have := congrArg List.length hnil
        simp only [List.length_take, List.length_nil] at this
        have h1 := digitsRun_le l
        omega)
      (take_all_of_le l (digitsRun l) _ (by omega) (digitsRun_take_all l))

theorem amtB1_sound (l : List Char) (k : ℕ) (h : amtB1 l = some k) :
    ∃ L, k = L + 3 ∧ 1 ≤ L ∧ L ≤ l.length ∧ intShape (l.take L) = true ∧
      amtTail (l.drop L) = true := by
  simp only [amtB1] at h
  obtain ⟨t, ht, hsome, _⟩ := findSome?_range_some _ _ _ h
  obtain ⟨u, hu, husome, _⟩ := findSome?_range_some _ _ _ hsome
  split_ifs at husome with htail
  · injection husome with hk
    set d1max := min 3 (digitsRun l) with hd1max
    set d1 := d1max - t with hd1
    set g := starMax (l.drop d1) with hg
    set j := g - u with hj
    have hd1le : d1 ≤ digitsRun l := by omega
    have hd11 : 1 ≤ d1 := by omega
    have hd13 : d1 ≤ 3 := by omega
    have hrunle := digitsRun_le l
    obtain ⟨hgt, hglen, hghead⟩ := starMax_take j (l.drop d1) (by omega)
    have hlenl : d1 + 4 * j ≤ l.length := by
      rw [List.length_drop] at hglen
      omega
    refine ⟨d1 + 4 * j, by omega, by omega, hlenl, ?_, htail⟩
    rw [List.take_add]
    apply intShape_grouped
    · simp only [List.length_take]
      omega
    · simp only [List.length_take]
      omega
    · exact take_all_of_le l (digitsRun l) d1 hd1le (digitsRun_take_all l)
    · exact hgt
    · rcases Nat.eq_zero_or_pos j with hj0 | hj1
      · left; rw [hj0]; simp
      · right
        rw [headD_take _ _ (by omega)]
        exact hghead hj1

theorem amtCoreNoSign_sound (l : List Char) (k : ℕ) (h : amtCoreNoSign l = some k) :
    ∃ L, k = L + 3 ∧ 1 ≤ L ∧ L ≤ l.length ∧ intShape (l.take L) = true ∧
      amtTail (l.drop L) = true := by
  unfold amtCoreNoSign at h
  rcases hb1 : amtB1 l with _ | k1
  · rw [hb1] at h
    simp only at h
    exact amtB2_sound l k h
  · rw [hb1] at h
    simp only at h
    injection h with hk
    subst hk
    exact amtB1_sound l k1 hb1

theorem token_of_parts (l : List Char) (L : ℕ) (hL1 : 1 ≤ L) (hLlen : L ≤ l.length)
    (hint : intShape (l.take L) = true) (htail : amtTail (l.drop L) = true) :
    fracShape (l.take (L + 3)) = true ∧ L + 3 ≤ l.length ∧
      (((l.drop (L + 3)).headD 'x').isDigit) = false ∧
      ((l.headD 'x').isDigit) = true := by
  obtain ⟨a, b, rest, hdrop, ha, hb, hrest⟩ := amtTail_spec _ htail
  have hlen3 : L + 3 ≤ l.length := by
    have := congrArg List.length hdrop
    simp only [List.length_drop, List.length_cons] at this
    omega
  have hbody : l.take (L + 3) = l.take L ++ ['.', a, b] := by
    rw [List.take_add, hdrop]
    rfl
  have hdrop3 : l.drop (L + 3) = rest := by
    rw [← List.drop_drop, hdrop]
    rfl
  refine ⟨?_, hlen3, by rw [hdrop3]; exact hrest, ?_⟩
  · rw [hbody, fracShape_append]
    simp [ha, hb, hint]
  · have hh := intShape_head _ hint
    rw [headD_take _ _ hL1] at hh
    exact hh

theorem amtCore_eq_noSign (c : Char) (cs : List Char) (h : ¬c = '-') :
    amtCore (c :: cs) = amtCoreNoSign (c :: cs) := by
  unfold amtCore
  split
  · rename_i heq
    injection heq with h1 _
    exact absurd h1 h
  · rfl

theorem amtCore_sound (l : List Char) (k : ℕ) (h : amtCore l = some k) :
    tokenShape (l.take k) = true ∧ 1 ≤ k ∧ k ≤ l.length ∧
      (((l.drop k).headD 'x').isDigit) = false := by
  cases l with
  | nil =>
    exfalso
    have : amtCore [] = none := by decide
    rw [this] at h
    exact Option.noConfusion h
  | cons c cs =>
    by_cases hc : c = '-'
    · subst hc
      rw [show amtCore ('-' :: cs) = (amtCoreNoSign cs).map (fun k => k + 1) from rfl] at h
      obtain ⟨k0, hk0, hkeq⟩ := Option.map_eq_some'.mp h
      obtain ⟨L, hkL, hL1, hLlen, hint, htail⟩ := amtCoreNoSign_sound cs k0 hk0
      obtain ⟨hfrac, hlen3, hafter, _⟩ := token_of_parts cs L hL1 hLlen hint htail
      subst hkeq hkL
      refine ⟨?_, by omega, by simp; omega, ?_⟩
      · rw [show ('-' :: cs).take (L + 3 + 1) = '-' :: cs.take (L + 3) from by
          rw [show L + 3 + 1 = (L + 3) + 1 from rfl, List.take_succ_cons]]
        rw [tokenShape_sign]
        exact hfrac
      · rw [show ('-' :: cs).drop (L + 3 + 1) = cs.drop (L + 3) from by
          rw [show L + 3 + 1 = (L + 3) + 1 from rfl, List.drop_succ_cons]]
        exact hafter
    · rw [amtCore_eq_noSign c cs hc] at h
      obtain ⟨L, hkL, hL1, hLlen, hint, htail⟩ := amtCoreNoSign_sound _ k h
      obtain ⟨hfrac, hlen3, hafter, hhead⟩ := token_of_parts _ L hL1 hLlen hint htail
      subst hkL
      refine ⟨?_, by omega, hlen3, hafter⟩
      rw [tokenShape_no_sign]
      · exact hfrac
      · rw [headD_take _ _ (by omega)]
        intro habs
        rw [habs] at hhead
        simp at hhead


/-! ## Claim C6: boundary-character transfer -/

theorem nondigit_getD_of_drop (l : List Char) (n : ℕ)
    (h : (((l.drop n).headD 'x').isDigit) = false) : (((l.getD n ' ').isDigit) = false) := by
  by_cases hn : n < l.length
  · rw [← List.getElem_cons_drop l n hn] at h
    simp only [List.headD_cons] at h
    rw [List.getD_eq_getElem?_getD, List.getElem?_eq_getElem hn]
    exact h
  · rw [List.getD_eq_getElem?_getD, List.getElem?_eq_none (by omega)]
    decide

theorem nondigit_drop_of_getD (l : List Char) (n : ℕ)
    (h : ((l.getD n ' ').isDigit) = false) : (((l.drop n).headD 'x').isDigit) = false := by
  by_cases hn : n < l.length
  · rw [← List.getElem_cons_drop l n hn]
    simp only [List.headD_cons]
    rw [List.getD_eq_getElem?_getD, List.getElem?_eq_getElem hn] at h
    exact h
  · rw [List.drop_eq_nil_of_le (by omega)]
    decide

/-! ## Claim C6: the match attempt is sound -/

theorem amtMatchAt_sound (s : List Char) (p e : ℕ) (h : amtMatchAt s p = some e) :
    amtTokenAt s p e = true := by
  unfold amtMatchAt at h
  split_ifs at h with hlb
  obtain ⟨k, hk, hke⟩ := Option.map_eq_some'.mp h
  obtain ⟨hts, hk1, hklen, hafter⟩ := amtCore_sound _ _ hk
  rw [List.length_drop] at hklen
  unfold amtTokenAt
  simp only [Bool.and_eq_true, decide_eq_true_eq]
  refine ⟨⟨⟨⟨by omega, by omega⟩, hlb⟩, ?_⟩, ?_⟩
  · rw [List.drop_drop] at hafter
    simp only [Bool.not_eq_true']
    apply nondigit_getD_of_drop
    rw [show p + k = e from hke] at hafter
    exact hafter
  · rw [show e - p = k from by omega]
    exact hts

/-! ## Claim C6: completeness of the compiled matcher -/

theorem amtB2_complete (l : List Char) (L : ℕ) (hL1 : 1 ≤ L) (hLlen : L ≤ l.length)
    (hall : ((l.take L).all Char.isDigit) = true)
    (htail : amtTail (l.drop L) = true) : amtB2 l ≠ none := by
  have hrun : L ≤ digitsRun l := digitsRun_ge l L hLlen hall
  simp only [amtB2]
  apply findSome?_range_ne_none _ _ (digitsRun l - L) (by omega)
  rw [show digitsRun l - (digitsRun l - L) = L from by omega, if_pos htail]
  simp

theorem coreNoSign_complete (l x : List Char) (a b : Char) (tail : List Char)
    (hl : l = x ++ ('.' :: a :: b :: tail)) (hint : intShape x = true)
    (ha : a.isDigit = true) (hb : b.isDigit = true)
    (htail : ((tail.headD 'x').isDigit) = false) : amtCoreNoSign l ≠ none := by
  have hxne : x ≠ [] := intShape_ne_nil x hint
  have hamtTail : amtTail ('.' :: a :: b :: tail) = true := by
    show (a.isDigit && b.isDigit && !((tail.headD 'x').isDigit)) = true
    rw [ha, hb, htail]
    rfl
  have hdropx : l.drop x.length = '.' :: a :: b :: tail := by
    rw [hl, List.drop_left]
  have hLlen : x.length ≤ l.length := by
    rw [hl]; simp
  by_cases hall : (x.all Char.isDigit) = true
  · -- plain digit run: the second alternative finds it
    intro hnone
    unfold amtCoreNoSign at hnone
    rcases hb1 : amtB1 l with _ | k1
    · rw [hb1] at hnone
      simp only at hnone
      refine amtB2_complete l x.length (by
          rcases x with _ | ⟨c, cs⟩
          · exact absurd rfl hxne
          · simp) hLlen ?_ (by rw [hdropx]; exact hamtTail) hnone
      rw [hl, List.take_left]
      exact hall
    · rw [hb1] at hnone
      simp at hnone
  · -- grouped integer part: the first alternative finds it
    have hint' := hint
    unfold intShape at hint'
    simp only [Bool.or_eq_true, Bool.and_eq_true, decide_eq_true_eq, Bool.not_eq_true'] at hint'
    rcases hint' with ⟨_, hall'⟩ | ⟨⟨hd1, hd3⟩, hgt⟩
    · exact absurd hall' hall
    set D := x.takeWhile Char.isDigit with hD
    set G := x.drop D.length with hG
    have hxDG : x = D ++ G := by
      rw [hD, hG]
      obtain ⟨t, htp⟩ := List.takeWhile_prefix (p := Char.isDigit) (l := x)
      conv_lhs => rw [← htp]
      congr 1
      rw [← htp, List.drop_left]
    have hGne : G ≠ [] := by
      intro hGnil
      rw [hGnil, List.append_nil] at hxDG
      apply hall
      rw [hxDG, hD]
      exact List.all_takeWhile
    obtain ⟨a2, b2, c2, grest, hGshape, _, _, _, _⟩ :=
      (groupedTail_inv G hgt).resolve_left hGne
    have hGhead : G.headD 'x' = ',' := by rw [hGshape]; rfl
    have hDall : (D.all Char.isDigit) = true := by rw [hD]; exact List.all_takeWhile
    have hrun : digitsRun l = D.length := by
      rw [hl, hxDG, List.append_assoc]
      apply digitsRun_append_exact _ _ hDall
      rw [hGshape]
      simp only [List.cons_append, List.headD_cons]
      decide
    have hd1max : 3 ⊓ digitsRun l = D.length := by rw [hrun]; omega
    have hB1 : amtB1 l ≠ none := by
      simp only [amtB1]
      refine findSome?_range_ne_none _ _ 0 (by omega) ?_
      simp only [Nat.sub_zero]
      rw [hd1max]
      obtain ⟨j, hGlen, hjle⟩ := groupedTail_starMax G ('.' :: a :: b :: tail) hgt
      have hstar : starMax (l.drop D.length) = starMax (G ++ ('.' :: a :: b :: tail)) := by
        rw [hl, hxDG, List.append_assoc, List.drop_left]
      refine findSome?_range_ne_none _ _ (starMax (l.drop D.length) - j) (by omega) ?_
      rw [show starMax (l.drop D.length) - (starMax (l.drop D.length) - j) = j from by
        rw [hstar]; omega]
      rw [if_pos ?_]
      · simp
      · rw [show D.length + 4 * j = x.length from by
          rw [hxDG, List.length_append, hGlen]]
        rw [hdropx]
        exact hamtTail
    intro hnone
    unfold amtCoreNoSign at hnone
    rcases hb1 : amtB1 l with _ | k1
    · exact hB1 hb1
    · rw [hb1] at hnone
      simp at hnone

theorem amtCore_complete (l : List Char) (k : ℕ) (hk1 : 1 ≤ k) (hklen : k ≤ l.length)
    (htok : tokenShape (l.take k) = true)
    (hafter : (((l.drop k).headD 'x').isDigit) = false) : amtCore l ≠ none := by
  by_cases hsign : (l.take k).headD 'x' = '-'
  · rcases hl : l with _ | ⟨c, cs⟩
    · rw [hl] at hklen; simp at hklen; omega
    have hc : c = '-' := by
      rw [hl] at hsign
      rcases k with _ | k'
      · omega
      · simpa using hsign
    subst hc
    subst hl
    have htk : ('-' :: cs).take k = '-' :: cs.take (k - 1) := by
      rcases k with _ | k'
      · omega
      · simp
    rw [htk, tokenShape_sign] at htok
    obtain ⟨x, a, b, hx, ha, hb, hint⟩ := fracShape_inv _ htok
    have hcs : cs = x ++ ('.' :: a :: b :: cs.drop (k - 1)) := by
      have h1 : cs.take (k - 1) ++ cs.drop (k - 1) = cs := List.take_append_drop _ _
      rw [hx] at h1
      conv_lhs => rw [← h1]
      rw [List.append_assoc]
      rfl
    have hafter' : (((cs.drop (k - 1)).headD 'x').isDigit) = false := by
      have hdk : ('-' :: cs).drop k = cs.drop (k - 1) := by
        rcases k with _ | k'
        · omega
        · simp
      rw [hdk] at hafter
      exact hafter
    have hcore := coreNoSign_complete cs x a b (cs.drop (k - 1)) hcs hint ha hb hafter'
    intro hnone
    rw [show amtCore ('-' :: cs) = (amtCoreNoSign cs).map (fun k => k + 1) from rfl] at hnone
    exact hcore (Option.map_eq_none'.mp hnone)
  · rw [tokenShape_no_sign _ hsign] at htok
    obtain ⟨x, a, b, hx, ha, hb, hint⟩ := fracShape_inv _ htok
    have hlx : l = x ++ ('.' :: a :: b :: l.drop k) := by
      have h1 : l.take k ++ l.drop k = l := List.take_append_drop _ _
      rw [hx] at h1
      conv_lhs => rw [← h1]
      rw [List.append_assoc]
      rfl
    have hcore := coreNoSign_complete l x a b (l.drop k) hlx hint ha hb hafter
    have hxne : x ≠ [] := intShape_ne_nil x hint
    have hhead : ((x.headD 'x').isDigit) = true := intShape_head x hint
    rcases hxx : x with _ | ⟨d, ds⟩
    · exact absurd hxx hxne
    subst hxx
    rw [hlx, List.cons_append]
    rw [amtCore_eq_noSign d _ (by
      simp only [List.headD_cons] at hhead
      intro hd
      rw [hd] at hhead
      simp at hhead)]
    rw [← List.cons_append, ← hlx]
    exact hcore

theorem amtMatchAt_complete (s : List Char) (p e : ℕ) (h : amtTokenAt s p e = true) :
    amtMatchAt s p ≠ none := by
  unfold amtTokenAt at h
  simp only [Bool.and_eq_true, decide_eq_true_eq] at h
  obtain ⟨⟨⟨⟨hpe, helen⟩, hlb⟩, hla⟩, hts⟩ := h
  unfold amtMatchAt
  rw [if_pos (show lookbehindOk s p = true from hlb)]
  intro hnone
  have hcore : amtCore (s.drop p) ≠ none := by
    apply amtCore_complete (s.drop p) (e - p) (by omega)
      (by rw [List.length_drop]; omega) hts
    rw [List.drop_drop, show p + (e - p) = e from by omega]
    apply nondigit_drop_of_getD
    simpa using hla
  exact hcore (Option.map_eq_none'.mp hnone)

/-! ## Claim C6: the search level -/

theorem amtSearch_characterization (s : String) :
    (∀ p e, amtSearch s = some (p, e) → amtTokenAt s.data p e = true ∧
      ∀ p' < p, ∀ e', amtTokenAt s.data p' e' = false)
    ∧ (amtSearch s = none → ∀ p e, amtTokenAt s.data p e = false) := by
  constructor
  · intro p e h
    unfold amtSearch at h
    obtain ⟨p0, hp0, hsome, hearlier⟩ := findSome?_range_some _ _ _ h
    obtain ⟨e0, hm, heq⟩ := Option.map_eq_some'.mp hsome
    obtain ⟨rfl, rfl⟩ : p0 = p ∧ e0 = e := by
      constructor
      · exact congrArg Prod.fst heq
      · exact congrArg Prod.snd heq
    refine ⟨amtMatchAt_sound _ _ _ hm, ?_⟩
    intro p' hp' e'
    by_contra hc
    have htok : amtTokenAt s.data p' e' = true := by
      cases hb : amtTokenAt s.data p' e'
      · exact absurd hb hc
      · rfl
    have hnone := hearlier p' hp'
    exact amtMatchAt_complete s.data p' e' htok (Option.map_eq_none'.mp hnone)
  · intro h p e
    cases hb : amtTokenAt s.data p e
    · rfl
    · exfalso
      have hp : p < s.data.length := by
        have hb' := hb
        unfold amtTokenAt at hb'
        simp only [Bool.and_eq_true, decide_eq_true_eq] at hb'
        omega
      have hnone := findSome?_range_none _ _ h p hp
      exact amtMatchAt_complete s.data p e hb (Option.map_eq_none'.mp hnone)

/-- **C6.**  `AMT_TIGHT_RE.search` returns the leftmost occurrence of a
monetary token (optional sign, integer part with optional thousands
separators, a literal decimal point, exactly two fraction digits, not
adjacent to digits on either side) and `none` when no such token exists;
in particular it matches `41.79` inside `"41.79P.O. Box"`, matches nothing in
`"123.456"`, and in `"212.99"` the first match is the whole token `212.99` at
offset 0 — never `12.99` at an offset. -/
theorem C6_amount_lexer :
    (∀ s : String,
      (∀ p e, amtSearch s = some (p, e) → amtTokenAt s.data p e = true ∧
        ∀ p' < p, ∀ e', amtTokenAt s.data p' e' = false)
      ∧ (amtSearch s = none → ∀ p e, amtTokenAt s.data p e = false))
    ∧ amtSearch "41.79P.O. Box" = some (0, 5)
    ∧ amtGroup "41.79P.O. Box" (0, 5) = "41.79"
    ∧ amtSearch "123.456" = none
    ∧ amtSearch "212.99" = some (0, 6)
    ∧ amtGroup "212.99" (0, 6) = "212.99" := by
  refine ⟨amtSearch_characterization, by decide, by decide, by decide, by decide, by decide⟩

/-- Witness for C6: the compiled matcher's result on `"212.99"` satisfies the
declarative monetary-token predicate. -/
theorem C6_amount_lexer_witness : amtTokenAt "212.99".data 0 6 = true :=
  (((C6_amount_lexer.1 "212.99").1) 0 6 (by decide)).1


/-! ## Character-level helpers: case mapping and digit rendering -/

theorem toNat_ofNat_valid (n : ℕ) (h : n.isValidChar) : (Char.ofNat n).toNat = n := by
  rw [Char.ofNat, dif_pos h]
  rfl

theorem toUpper_ne_dash (c : Char) (hne : c ≠ '-') : c.toUpper ≠ '-' := by
  intro h
  simp only [Char.toUpper] at h
  by_cases hc : c.toNat ≥ 97 ∧ c.toNat ≤ 122
  · rw [if_pos hc] at h
    have h2 := congrArg Char.toNat h
    rw [toNat_ofNat_valid _ (by unfold Nat.isValidChar; omega)] at h2
    have h3 : ('-').toNat = 45 := rfl
    rw [h3] at h2
    omega
  · rw [if_neg hc] at h
    exact hne h

theorem toLower_ne_dash (c : Char) (hne : c ≠ '-') : c.toLower ≠ '-' := by
  intro h
  simp only [Char.toLower] at h
  by_cases hc : c.toNat ≥ 65 ∧ c.toNat ≤ 90
  · rw [if_pos hc] at h
    have h2 := congrArg Char.toNat h
    rw [toNat_ofNat_valid _ (by unfold Nat.isValidChar; omega)] at h2
    have h3 : ('-').toNat = 45 := rfl
    rw [h3] at h2
    omega
  · rw [if_neg hc] at h
    exact hne h

theorem pyCapitalize_no_dash (s : String) (h : '-' ∉ s.data) :
    '-' ∉ (pyCapitalize s).data := by
  unfold pyCapitalize
  rcases hs : s.data with _ | ⟨c, cs⟩
  · decide
  · intro hc
    have hc2 : '-' ∈ c.toUpper :: cs.map Char.toLower := hc
    rcases List.mem_cons.mp hc2 with h1 | h2
    · have hcne : c ≠ '-' := fun he => h (by rw [hs, he]; exact List.mem_cons_self _ _)
      exact toUpper_ne_dash c hcne h1.symm
    · obtain ⟨d, hd, hdl⟩ := List.mem_map.mp h2
      have hdne : d ≠ '-' := fun he => h (by rw [hs]; exact List.mem_cons_of_mem c (he ▸ hd))
      exact toLower_ne_dash d hdne hdl

theorem mem_pyJoin (sep : String) (l : List String) (c : Char)
    (h : c ∈ (pyJoin sep l).data) : c ∈ sep.data ∨ ∃ s ∈ l, c ∈ s.data := by
  induction l with
  | nil =>
    rw [show (pyJoin sep []).data = [] from rfl] at h
    exact absurd h (List.not_mem_nil c)
  | cons x xs ih =>
    rcases xs with _ | ⟨y, ys⟩
    · right
      exact ⟨x, List.mem_cons_self _ _, h⟩
    · rw [show pyJoin sep (x :: y :: ys) = x ++ sep ++ pyJoin sep (y :: ys) from rfl] at h
      rw [String.data_append, String.data_append] at h
      rcases List.mem_append.mp h with h1 | h1
      · rcases List.mem_append.mp h1 with h2 | h2
        · right; exact ⟨x, List.mem_cons_self _ _, h2⟩
        · left; exact h2
      · rcases ih h1 with h2 | ⟨s, hs, hc⟩
        · left; exact h2
        · right; exact ⟨s, List.mem_cons_of_mem x hs, hc⟩

theorem getD_digitChars_mem (k : ℕ) : digitChars.getD k '0' ∈ digitChars := by
  by_cases hk : k < digitChars.length
  · rw [List.getD_eq_getElem _ _ hk]
    exact List.getElem_mem hk
  · rw [List.getD_eq_default _ _ (le_of_not_lt hk)]
    decide

theorem natDigitsGo_mem : ∀ (fuel n : ℕ) (acc : List Char) (c : Char),
    c ∈ natDigitsGo fuel n acc → c ∈ acc ∨ c ∈ digitChars := by
  intro fuel
  induction fuel with
  | zero => intro n acc c h; exact .inl h
  | succ f ih =>
    intro n acc c h
    unfold natDigitsGo at h
    split at h
    · rcases List.mem_cons.mp h with rfl | h2
      · exact .inr (getD_digitChars_mem n)
      · exact .inl h2
    · rcases ih (n / 10) (digitChars.getD (n % 10) '0' :: acc) c h with h2 | h2
      · rcases List.mem_cons.mp h2 with rfl | h3
        · exact .inr (getD_digitChars_mem (n % 10))
        · exact .inl h3
      · exact .inr h2

theorem dash_not_mem_natRepr (n : ℕ) : '-' ∉ (natRepr n).data := by
  intro h
  rcases natDigitsGo_mem (n + 1) n [] '-' h with h2 | h2
  · exact List.not_mem_nil _ h2
  · exact absurd h2 (by decide)

theorem intRepr_nonneg_no_dash (z : ℤ) (h : 0 ≤ z) : '-' ∉ (intRepr z).data := by
  unfold intRepr
  rw [if_neg (not_lt.mpr h)]
  intro hc
  rw [String.data_append] at hc
  rcases List.mem_append.mp hc with hc | hc
  · rw [show ("" : String).data = [] from rfl] at hc
    exact List.not_mem_nil _ hc
  · exact dash_not_mem_natRepr _ hc

theorem pyFmt02d_no_dash (z : ℤ) (h : 0 ≤ z) : '-' ∉ (pyFmt02d z).data := by
  simp only [pyFmt02d]
  split_ifs with hlen
  · intro hc
    rw [String.data_append] at hc
    rcases List.mem_append.mp hc with hc | hc
    · exact absurd hc (by decide)
    · exact intRepr_nonneg_no_dash z h hc
  · exact intRepr_nonneg_no_dash z h

/-! ## The word lists of `money_words` never contain a minus sign -/

theorem mem_small_no_dash : ∀ s ∈ small, '-' ∉ s.data := by decide

theorem mem_tens_no_dash : ∀ s ∈ tens, '-' ∉ s.data := by decide

theorem getD_small_no_dash (k : ℕ) : '-' ∉ (small.getD k "").data := by
  by_cases hk : k < small.length
  · exact mem_small_no_dash _ (by rw [List.getD_eq_getElem _ _ hk]; exact List.getElem_mem hk)
  · rw [List.getD_eq_default _ _ (le_of_not_lt hk)]
    decide

theorem getD_tens_no_dash (k : ℕ) : '-' ∉ (tens.getD k "").data := by
  by_cases hk : k < tens.length
  · exact mem_tens_no_dash _ (by rw [List.getD_eq_getElem _ _ hk]; exact List.getElem_mem hk)
  · rw [List.getD_eq_default _ _ (le_of_not_lt hk)]
    decide

theorem up_to_999_parts_mem (x : ℤ) (s : String) (hs : s ∈ up_to_999_parts x) :
    (∃ k, s = small.getD k "") ∨ (∃ k, s = tens.getD k "") ∨ s = "hundred" ∨ s = "zero" := by
  simp only [up_to_999_parts] at hs
  rcases List.mem_append.mp hs with h1 | h2
  · split_ifs at h1 with hx
    · rcases List.mem_cons.mp h1 with rfl | h1
      · exact .inl ⟨_, rfl⟩
      · rcases List.mem_cons.mp h1 with rfl | h1
        · exact .inr (.inr (.inl rfl))
        · exact absurd h1 (List.not_mem_nil _)
    · exact absurd h1 (List.not_mem_nil _)
  · split_ifs at h2 <;>
      first
        | exact absurd h2 (List.not_mem_nil _)
        | (rcases List.mem_append.mp h2 with h3 | h3 <;>
            first
              | exact absurd h3 (List.not_mem_nil _)
              | (rcases List.mem_cons.mp h3 with rfl | h3 <;>
                  first
                    | exact .inl ⟨_, rfl⟩
                    | exact .inr (.inl ⟨_, rfl⟩)
                    | exact absurd h3 (List.not_mem_nil _)))
        | (rcases List.mem_cons.mp h2 with rfl | h2 <;>
            first
              | exact .inl ⟨_, rfl⟩
              | exact .inr (.inl ⟨_, rfl⟩)
              | exact .inr (.inr (.inr rfl))
              | exact absurd h2 (List.not_mem_nil _))

theorem up_to_999_no_dash (x : ℤ) : '-' ∉ (up_to_999 x).data := by
  intro h
  unfold up_to_999 at h
  rcases mem_pyJoin _ _ _ h with hsep | ⟨s, hs, hc⟩
  · exact absurd hsep (by decide)
  · rcases up_to_999_parts_mem x s hs with ⟨k, rfl⟩ | ⟨k, rfl⟩ | rfl | rfl
    · exact getD_small_no_dash k hc
    · exact getD_tens_no_dash k hc
    · exact absurd hc (by decide)
    · exact absurd hc (by decide)

theorem chunk_parts_mem (x : ℤ) (s : String) (hs : s ∈ chunk_parts x) :
    (∃ y, s = up_to_999 y) ∨ s = "billion" ∨ s = "million" ∨ s = "thousand" := by
  simp only [chunk_parts, List.mem_append] at hs
  rcases hs with ((h | h) | h) | h <;>
    (split_ifs at h <;>
      first
        | exact absurd h (List.not_mem_nil _)
        | (rcases List.mem_cons.mp h with rfl | h <;>
            first
              | exact .inl ⟨_, rfl⟩
              | exact .inr (.inl rfl)
              | exact .inr (.inr (.inl rfl))
              | exact .inr (.inr (.inr rfl))
              | exact absurd h (List.not_mem_nil _)
              | (rcases List.mem_cons.mp h with rfl | h <;>
                  first
                    | exact .inl ⟨_, rfl⟩
                    | exact .inr (.inl rfl)
                    | exact .inr (.inr (.inl rfl))
                    | exact .inr (.inr (.inr rfl))
                    | exact absurd h (List.not_mem_nil _))))

theorem chunk_no_dash (x : ℤ) : '-' ∉ (chunk x).data := by
  simp only [chunk]
  split_ifs with he
  · decide
  · intro h
    rcases mem_pyJoin _ _ _ h with hsep | ⟨s, hs, hc⟩
    · exact absurd hsep (by decide)
    · rcases chunk_parts_mem x s hs with ⟨y, rfl⟩ | rfl | rfl | rfl
      · exact up_to_999_no_dash y hc
      · exact absurd hc (by decide)
      · exact absurd hc (by decide)
      · exact absurd hc (by decide)

theorem fmt2_nonneg_no_dash (tc : ℤ) (h : 0 ≤ tc) : '-' ∉ (fmt2 tc).data := by
  unfold fmt2
  rw [if_neg (not_lt.mpr h)]
  intro hc
  simp only [String.data_append, List.mem_append] at hc
  rcases hc with (((hc | hc) | hc) | hc) | hc
  · exact absurd hc (by decide)
  · exact dash_not_mem_natRepr _ hc
  · exact absurd hc (by decide)
  · revert hc
    split_ifs <;> decide
  · exact dash_not_mem_natRepr _ hc

theorem money_words_nonneg_no_dash (tc : ℤ) (h : 0 ≤ tc) : '-' ∉ (money_words tc).data := by
  simp only [money_words]
  apply pyCapitalize_no_dash
  intro hc
  simp only [String.data_append, List.mem_append] at hc
  rcases hc with (((hc | hc) | hc) | hc) | hc
  · exact chunk_no_dash _ hc
  · revert hc
    split_ifs <;> decide
  · exact absurd hc (by decide)
  · exact pyFmt02d_no_dash _ (Int.tmod_nonneg _ h) hc
  · exact absurd hc (by decide)


/-! ## Claim C7: sign handling in the rendered amount -/

/-- **C7 (counterexample).**  The claim says the sign of the amount token is
stripped or ignored for rendering, so the rendered numeric amount and the
amount-in-words line never show a negative value.  In fact no sign stripping
occurs anywhere: a payload whose amount token is `-41.79` yields an extracted
record with amount `-41.79`, the numeric field renders as `"-41.79"`, and the
words line renders with a negative cents fraction `"-79/100"` — both carry a
minus sign. -/
theorem C7_sign_counterexample :
    extract_records ["DateContactDescriptionCredit", "08/07/2025Acme|memo|-41.79addr|"]
      = [⟨"08/07/2025", "Acme", "memo", ["addr"], -4179⟩]
    ∧ fmt2 (-4179) = "-41.79"
    ∧ money_words (-4179) = "Zero dollars and -79/100"
    ∧ '-' ∈ (fmt2 (-4179)).data ∧ '-' ∈ (money_words (-4179)).data := by
  exact ⟨by decide, by decide, by decide, by decide, by decide⟩

/-- **C7 (amended).**  No sign stripping occurs: a record with a negative
amount renders its numeric field with a leading minus sign.  Only for
non-negative amounts do the rendered numeric field and the amount-in-words
line contain no minus sign. -/
theorem C7_sign_amended :
    (∀ tc : ℤ, tc < 0 → (fmt2 tc).data.headD ' ' = '-')
    ∧ (∀ tc : ℤ, 0 ≤ tc → '-' ∉ (fmt2 tc).data ∧ '-' ∉ (money_words tc).data) := by
  constructor
  · intro tc h
    unfold fmt2
    rw [if_pos h]
    rfl
  · intro tc h
    exact ⟨fmt2_nonneg_no_dash tc h, money_words_nonneg_no_dash tc h⟩

/-- Witness for C7: the amended statement evaluated at `-0.01` and `41.79`. -/
theorem C7_sign_amended_witness :
    (fmt2 (-1)).data.headD ' ' = '-'
    ∧ '-' ∉ (fmt2 4179).data ∧ '-' ∉ (money_words 4179).data :=
  ⟨C7_sign_amended.1 (-1) (by decide), (C7_sign_amended.2 4179 (by decide)).1,
   (C7_sign_amended.2 4179 (by decide)).2⟩

/-! ## Claim C1: the forward scan of the pipe fast path -/

theorem findIdx?_of_first (l : List String) (p : String → Bool) (j : ℕ)
    (hj : j < l.length) (hbefore : ∀ i, i < j → p (l.getD i "") = false)
    (hp : p (l.getD j "") = true) : l.findIdx? p = some j := by
  rw [List.findIdx?_eq_some_iff_getElem]
  rw [List.getD_eq_getElem l "" hj] at hp
  refine ⟨hj, hp, ?_⟩
  intro k hk
  have hb := hbefore k hk
  rw [List.getD_eq_getElem l "" (lt_trans hk hj)] at hb
  simp [hb]

/-- **C1 (counterexample).**  The claim says that when the remainder has no
amount token the extractor scans forward through subsequent lines until some
line yields an amount match, failing only if no amount is ever found.  In
fact only the FIRST non-blank follow line is examined: here it is
`"no amount here"`, so the path fails even though the very next line
`"41.79"` carries an amount token. -/
theorem C1_peek_counterexample :
    parse_payload_with_pipes "Acme| memo| rest" ["no amount here", "41.79"] = none
    ∧ (amtSearch "41.79").isSome = true := by
  exact ⟨by decide, by decide⟩

/-- **C1 (amended).**  When the remainder carries no amount token, the pipe
fast path peeks at exactly the first non-blank follow line `j`: if that line
has no amount match the path fails immediately (whatever the later lines
contain), and if it has one the record is built from that line with the
follow lines after it. -/
theorem C1_pipe_peek_amended :
    ∀ (fp : String) (follow : List String) (j : ℕ),
      amtSearch (pipe_remainder fp) = none →
      j < follow.length →
      (∀ i, i < j → (pyStrip (follow.getD i "")).data.isEmpty = true) →
      (pyStrip (follow.getD j "")).data.isEmpty = false →
      (amtSearch (follow.getD j "") = none → parse_payload_with_pipes fp follow = none)
      ∧ ∀ pe : ℕ × ℕ, amtSearch (follow.getD j "") = some pe →
          parse_payload_with_pipes fp follow =
            pipe_build (pipe_payee fp) (pipe_memo fp) (follow.getD j "") pe.2
              (amtGroup (follow.getD j "") pe) (follow.drop (j + 1)) := by
  intro fp follow j hrem hj hblank hnb
  have hfind : follow.findIdx? (fun ln => !(pyStrip ln).data.isEmpty) = some j := by
    apply findIdx?_of_first follow _ j hj
    · intro i hi
      rw [hblank i hi]
      rfl
    · rw [hnb]
      rfl
  constructor
  · intro hnone
    simp only [parse_payload_with_pipes, hrem, hfind, hnone]
  · intro pe hsome
    simp only [parse_payload_with_pipes, hrem, hfind, hsome]

/-- Witness for C1: with remainder `"rest"` (no amount), a blank first follow
line and the amount-bearing line `"41.79P.O. Box"` next, the record is built
from that line. -/
theorem C1_pipe_peek_amended_witness :
    parse_payload_with_pipes "Acme| memo| rest" ["", "41.79P.O. Box"] =
      pipe_build (pipe_payee "Acme| memo| rest") (pipe_memo "Acme| memo| rest")
        "41.79P.O. Box" 5 (amtGroup "41.79P.O. Box" (0, 5)) [] :=
  (C1_pipe_peek_amended "Acme| memo| rest" ["", "41.79P.O. Box"] 1 (by decide) (by decide)
    (by decide) (by decide)).2 (0, 5) (by decide)

/-! ## Claim C4: when the block fallback runs -/

/-- **C4 (counterexample).**  The claim says the block fallback is used only
when no header line is found.  In fact `main` falls back whenever the primary
parser returns zero records: here a header IS present (index 0), but a footer
marker right after it makes `parse_text_report` return `[]`, and the
extracted records come from `parse_blocks`. -/
theorem C4_fallback_counterexample :
    ((["DateContactDescriptionCredit", "Printable Checks - For the period X",
        "01/02/2003", "Payee Line", "41.79", "addr|line"] : List String).findIdx?
          isHeaderLine = some 0)
    ∧ parse_text_report ["DateContactDescriptionCredit",
        "Printable Checks - For the period X", "01/02/2003", "Payee Line", "41.79",
        "addr|line"] = []
    ∧ parse_blocks ["DateContactDescriptionCredit",
        "Printable Checks - For the period X", "01/02/2003", "Payee Line", "41.79",
        "addr|line"] = [⟨"01/02/2003", "Payee Line", "", ["addr", "line"], 4179⟩]
    ∧ extract_records ["DateContactDescriptionCredit",
        "Printable Checks - For the period X", "01/02/2003", "Payee Line", "41.79",
        "addr|line"] = [⟨"01/02/2003", "Payee Line", "", ["addr", "line"], 4179⟩] := by
  exact ⟨by decide, by decide, by decide, by decide⟩

/-- **C4 (amended).**  A missing header does make the primary parser return
no records, and the extraction is `parse_blocks` exactly when
`parse_text_report` returns zero records (whether because the header is
missing or because the record loop found nothing), the primary result
otherwise. -/
theorem C4_fallback_amended :
    (∀ lines : List String, lines.findIdx? isHeaderLine = none → parse_text_report lines = [])
    ∧ (∀ lines : List String, parse_text_report lines = [] →
        extract_records lines = parse_blocks lines)
    ∧ (∀ lines : List String, parse_text_report lines ≠ [] →
        extract_records lines = parse_text_report lines) := by
  refine ⟨?_, ?_, ?_⟩
  · intro lines h
    unfold parse_text_report
    rw [h]
  · intro lines h
    simp only [extract_records, h, List.isEmpty_nil, if_true]
  · intro lines h
    simp only [extract_records]
    rw [if_neg (by simp [List.isEmpty_iff, h])]

/-- Witness for C4: a header-free input has an empty primary parse and is
extracted by the block fallback. -/
theorem C4_fallback_amended_witness :
    parse_text_report ["sole line"] = []
    ∧ extract_records ["sole line"] = parse_blocks ["sole line"] :=
  ⟨C4_fallback_amended.1 ["sole line"] (by decide),
   C4_fallback_amended.2.1 ["sole line"] (by decide)⟩

/-! ## Claim C5: the length of a normalized address -/

/-- **C5 (counterexample).**  The claim says `normalize_addr` returns at most
4 display lines and every record's address has 0–4 entries.  In fact the
normalizer has no cap: a single line with four pipe separators yields 5
lines, and an extracted record can carry a 5-entry address. -/
theorem C5_addr_counterexample :
    (normalize_addr ["1|2|3|4|5"]).length = 5
    ∧ (extract_records ["DateContactDescriptionCredit",
          "08/07/2025Acme|memo|41.79a|b|c|d|e"]).map (fun r => r.addr)
        = [["a", "b", "c", "d", "e"]] := by
  exact ⟨by decide, by decide⟩

/-- **C5 (amended).**  The ≤4 cap is enforced at rendering, not in the
normalizer: `render_check_page` places only the first 4 address lines, so the
rendered page depends only on the first 4 entries of the record's address. -/
theorem C5_addr_amended :
    ∀ rec : PayRec,
      render_check_page rec =
        render_check_page ⟨rec.date, rec.payee, rec.memo, rec.addr.take 4, rec.amount⟩ := by
  intro rec
  obtain ⟨d, p, m, a, amt⟩ := rec
  simp only [render_check_page]
  rw [show ((a.take 4).map sanitize).take 4 = (a.map sanitize).take 4 from by
    rw [List.map_take, List.take_take, Nat.min_self]]

/-! ## Claim C8: the zero-records outcome of `main` -/

/-- **C8.**  When extraction yields zero records, `main` produces the
no-records outcome carrying the debug dump of the first 400 raw lines with
their indices — and only then: the rendered outcome (preview pages plus the
device payload) is produced exactly when at least one record is extracted.
In particular an input with no date-leading lines and no header yields the
no-records outcome. -/
theorem C8_no_records_outcome :
    (∀ lines : List String, extract_records lines = [] →
        main_outcome lines = MainResult.noRecords (lines.take 400).enum)
    ∧ (∀ (lines : List String) (dump : List (ℕ × String)),
        main_outcome lines = MainResult.noRecords dump →
          extract_records lines = [] ∧ dump = (lines.take 400).enum)
    ∧ extract_records ["hello", "world"] = []
    ∧ main_outcome ["hello", "world"] = MainResult.noRecords [(0, "hello"), (1, "world")] := by
  refine ⟨?_, ?_, by decide, by decide⟩
  · intro lines h
    simp only [main_outcome, h, List.isEmpty_nil, if_true]
  · intro lines dump h
    by_cases he : extract_records lines = []
    · refine ⟨he, ?_⟩
      simp only [main_outcome, he, List.isEmpty_nil, if_true] at h
      injection h with h2
      exact h2.symm
    · exfalso
      simp only [main_outcome] at h
      rw [if_neg (by simp [List.isEmpty_iff, he])] at h
      cases h

/-- Witness for C8: the outcome on a one-line junk input. -/
theorem C8_no_records_outcome_witness :
    main_outcome ["zzz"] = MainResult.noRecords ((["zzz"] : List String).take 400).enum :=
  C8_no_records_outcome.1 ["zzz"] (by decide)

end PVC
